import Mathlib

/-!
# Verification of the Sawrin dependency-graph / impact-analysis core

Shallow embedding of the core data structures and algorithms of the
Sawrin test-impact analyzer (`src/core/dependency-graph.ts`,
`src/core/cache.ts`, `src/core/monorepo.ts`,
`src/analyzers/risk-calculator.ts`, `src/heuristics/*.ts`, and the
unit-test analyzer), together with proofs of the specified properties.

JavaScript `Map`s are modelled as insertion-ordered association lists
(`JsMap`): `set` updates a present key in place and appends an absent
key, exactly mirroring JS `Map` iteration semantics.  JS `Set`s of
strings are modelled as duplicate-free insertion-ordered lists.
Filesystem access (which the graph builder and the monorepo resolver
perform through `existsSync`/`statSync`/`readFileSync`) is modelled by
explicit environment parameters.
-/

/-- Insertion-ordered association list modelling a JS `Map` keyed by strings. -/
abbrev JsMap (α : Type) := List (String × α)

/-- Model of `Map.get`: first (and only) binding of the key, if present. -/
def mapGet {α : Type} : JsMap α → String → Option α
  | [], _ => none
  | (k, v) :: rest, key => if k = key then some v else mapGet rest key

/-- Model of `Map.set`: update the key in place if present, else append. -/
def mapSet {α : Type} : JsMap α → String → α → JsMap α
  | [], key, val => [(key, val)]
  | (k, v) :: rest, key, val =>
    if k = key then (key, val) :: rest else (k, v) :: mapSet rest key val

/-- Model of `Map.has`. -/
def mapHas {α : Type} (m : JsMap α) (key : String) : Bool :=
  (mapGet m key).isSome

/-! ## Cache Manager (`src/core/cache.ts`)

`CacheManager` keeps an in-memory `CacheData` document `{version, entries}`.
We model the in-memory state; `getFileHash` (MD5) is treated as an opaque
string supplied by the caller, and `Date.now()` as an explicit timestamp
argument, since neither influences the cache logic beyond equality. -/

/-- Model of `CacheEntry` from `src/core/cache.ts`. -/
structure CacheEntry where
  hash : String
  imports : List String
  timestamp : Nat
deriving Repr, DecidableEq

/-- Model of `CacheData` from `src/core/cache.ts`: entries keyed by file path. -/
structure CacheData where
  version : String
  entries : JsMap CacheEntry
deriving Repr, DecidableEq

/-- The schema version constant `VERSION = "1.0.0"`. -/
def cacheVERSION : String := "1.0.0"

/-- Fresh cache document, as built by the constructor before `load()`. -/
def cacheEmpty : CacheData := { version := cacheVERSION, entries := [] }

/-- Model of `CacheManager.get(filePath, currentHash)`: the cached import list if an
entry exists for the path and its stored hash equals `currentHash`. -/
def cacheGet (d : CacheData) (filePath currentHash : String) :
    Option (List String) :=
  match mapGet d.entries filePath with
  | some entry => if entry.hash = currentHash then some entry.imports else none
  | none => none

/-- Model of `CacheManager.set(filePath, hash, imports)` (timestamp = `Date.now()`). -/
def cacheSet (d : CacheData) (filePath hash : String) (imports : List String)
    (now : Nat) : CacheData :=
  { d with entries :=
      mapSet d.entries filePath (CacheEntry.mk hash imports now) }

/-- Model of `CacheManager.clear()`: reset to an empty current-version document
(the subsequent `save()` only touches the disk, not the data). -/
def cacheClear (_d : CacheData) : CacheData :=
  { version := cacheVERSION, entries := [] }

/-! ## Dependency graph and `getAffectedFiles` (`src/core/dependency-graph.ts`)

`DependencyGraph` holds `imports`, `importedBy` and `exports` maps; JS
`Set<string>` values are modelled as lists (membership is what the code
uses; insertion order is preserved).  `getAffectedFiles` is the queue
based BFS of lines 344-376, translated statement by statement. -/

/-- Model of `DependencyGraph` from `src/types/index.ts`. -/
structure DependencyGraph where
  imports : JsMap (List String)
  importedBy : JsMap (List String)
  exports : JsMap (List String)

/-- Model of `graph.importedBy.get(file)` guarded by `if (importers)`: the set
of importers iterated by the inner loop (empty when the key is absent). -/
def importersOf (g : DependencyGraph) (file : String) : List String :=
  (mapGet g.importedBy file).getD []

/-- Body of the inner `for (const importer of importers)` loop of
`getAffectedFiles`: if `importer` is unrecorded or recorded deeper than
`depth + 1`, record it at `depth + 1` and enqueue it. -/
def relaxStep (depth : Nat) (st : JsMap Nat × List (String × Nat))
    (importer : String) : JsMap Nat × List (String × Nat) :=
  match mapGet st.1 importer with
  | none => (mapSet st.1 importer (depth + 1), st.2 ++ [(importer, depth + 1)])
  | some dv =>
    if depth + 1 < dv then
      (mapSet st.1 importer (depth + 1), st.2 ++ [(importer, depth + 1)])
    else st

/-- The whole inner loop over the importers of the dequeued file. -/
def relaxAll (depth : Nat) (st : JsMap Nat × List (String × Nat))
    (importers : List String) : JsMap Nat × List (String × Nat) :=
  importers.foldl (relaxStep depth) st

/-- All strings occurring in some `importedBy` adjacency list (the only
candidates the BFS can ever enqueue after the seeds). -/
def graphNodes (g : DependencyGraph) : List String :=
  (g.importedBy.map Prod.snd).flatten.dedup

/-- Termination potential of one node: its best recorded depth, capped at
`maxDepth + 1`, with `maxDepth + 1` standing for "unrecorded". -/
def depthBudget (maxDepth : Nat) (affected : JsMap Nat) (v : String) : Nat :=
  min ((mapGet affected v).getD (maxDepth + 1)) (maxDepth + 1)

/-- Termination measure for the BFS work loop. -/
def bfsMeasure (g : DependencyGraph) (maxDepth : Nat)
    (affected : JsMap Nat) (queue : List (String × Nat)) : Nat :=
  queue.length + ((graphNodes g).map (depthBudget maxDepth affected)).sum

/-- The `while (queue.length > 0)` loop of `getAffectedFiles`
(lines 359-373 of `src/core/dependency-graph.ts`). -/
def bfsLoop (g : DependencyGraph) (maxDepth : Nat) :
    JsMap Nat → List (String × Nat) → JsMap Nat
  | affected, [] => affected
  | affected, (file, depth) :: rest =>
    if maxDepth ≤ depth then
      bfsLoop g maxDepth affected rest
    else
      bfsLoop g maxDepth
        (relaxAll depth (affected, rest) (importersOf g file)).1
        (relaxAll depth (affected, rest) (importersOf g file)).2
termination_by affected queue => bfsMeasure g maxDepth affected queue
decreasing_by
· simp [bfsMeasure]
· have hget_set_self : ∀ (m : JsMap Nat) (k : String) (x : Nat),
      mapGet (mapSet m k x) k = some x := by
    intro m k x
    induction m with
    | nil => simp [mapSet, mapGet]
    | cons p tl ih => by_cases hk : p.1 = k <;> simp [mapSet, mapGet, hk, ih]
  have hget_set_other : ∀ (m : JsMap Nat) (k k' : String) (x : Nat),
      k ≠ k' → mapGet (mapSet m k x) k' = mapGet m k' := by
    intro m k k' x hne
    induction m with
    | nil => simp [mapSet, mapGet, hne]
    | cons p tl ih =>
      by_cases hk : p.1 = k
      · subst hk
        simp [mapSet, mapGet, hne]
      · simp only [mapSet, if_neg hk]
        by_cases hk' : p.1 = k' <;> simp [mapGet, hk', ih]
  have hget_mem : ∀ (m : JsMap (List String)) (k : String) (l : List String),
      mapGet m k = some l → (k, l) ∈ m := by
    intro m k l hkl
    induction m with
    | nil => simp [mapGet] at hkl
    | cons p tl ih =>
      by_cases hk : p.1 = k
      · simp [mapGet, hk] at hkl
        have hp : p = (k, l) := by cases p; simp_all
        rw [hp]
        exact List.mem_cons_self _ _
      · simp [mapGet, hk] at hkl
        exact List.mem_cons_of_mem _ (ih hkl)
  have hmem_nodes : ∀ v ∈ importersOf g file, v ∈ graphNodes g := by
    intro v hv
    unfold importersOf at hv
    cases hg : mapGet g.importedBy file with
    | none => simp [hg] at hv
    | some l =>
      rw [hg] at hv
      simp only [Option.getD_some] at hv
      unfold graphNodes
      rw [List.mem_dedup]
      exact List.mem_flatten.mpr
        ⟨l, List.mem_map.mpr ⟨(file, l), hget_mem _ _ _ hg, rfl⟩, hv⟩
  have hsum : ∀ (l : List String), l.Nodup → ∀ (v : String), v ∈ l →
      ∀ (f f' : String → Nat), (∀ x ∈ l, x ≠ v → f' x = f x) →
      f' v + 1 ≤ f v → (l.map f').sum + 1 ≤ (l.map f).sum := by
    intro l
    induction l with
    | nil => intro _ v hv; simp at hv
    | cons a as ih =>
      intro hl v hv f f' hothers hself
      by_cases ha : a = v
      · subst ha
        have hnot : a ∉ as := (List.nodup_cons.mp hl).1
        have heq : as.map f' = as.map f := by
          apply List.map_congr_left
          intro y hy
          exact hothers y (List.mem_cons_of_mem _ hy) (fun hyv => hnot (hyv ▸ hy))
        simp only [List.map_cons, List.sum_cons, heq]
        omega
      · have hva : v ∈ as := by
          rcases List.mem_cons.mp hv with hbad | hok
          · exact absurd hbad.symm ha
          · exact hok
        have hfa : f' a = f a := hothers a (List.mem_cons_self _ _) ha
        have hih := ih (List.nodup_cons.mp hl).2 v hva f f'
          (fun y hy => hothers y (List.mem_cons_of_mem _ hy)) hself
        simp only [List.map_cons, List.sum_cons, hfa]
        omega
  have hstep : ∀ (st : JsMap Nat × List (String × Nat)) (v : String),
      v ∈ graphNodes g →
      bfsMeasure g maxDepth (relaxStep depth st v).1 (relaxStep depth st v).2
        ≤ bfsMeasure g maxDepth st.1 st.2 := by
    intro st v hv
    have hnodup : (graphNodes g).Nodup := List.nodup_dedup _
    have hbudget_other : ∀ x ∈ graphNodes g, x ≠ v →
        depthBudget maxDepth (mapSet st.1 v (depth + 1)) x
          = depthBudget maxDepth st.1 x := by
      intro x _ hne
      unfold depthBudget
      rw [hget_set_other _ _ _ _ (Ne.symm hne)]
    have hnew : depthBudget maxDepth (mapSet st.1 v (depth + 1)) v
        = depth + 1 := by
      unfold depthBudget
      rw [hget_set_self]
      simp only [Option.getD_some]
      omega
    cases hget : mapGet st.1 v with
    | none =>
      have hold : depthBudget maxDepth st.1 v = maxDepth + 1 := by
        unfold depthBudget
        rw [hget]
        simp
      have hs := hsum (graphNodes g) hnodup v hv
        (depthBudget maxDepth st.1)
        (depthBudget maxDepth (mapSet st.1 v (depth + 1)))
        hbudget_other (by rw [hnew, hold]; omega)
      simp only [relaxStep, hget, bfsMeasure, List.length_append,
        List.length_cons, List.length_nil]
      omega
    | some dv =>
      by_cases hlt : depth + 1 < dv
      · have hold : depth + 2 ≤ depthBudget maxDepth st.1 v := by
          unfold depthBudget
          rw [hget]
          simp only [Option.getD_some]
          omega
        have hs := hsum (graphNodes g) hnodup v hv
          (depthBudget maxDepth st.1)
          (depthBudget maxDepth (mapSet st.1 v (depth + 1)))
          hbudget_other (by rw [hnew]; omega)
        simp only [relaxStep, hget, if_pos hlt, bfsMeasure, List.length_append,
          List.length_cons, List.length_nil]
        omega
      · simp only [relaxStep, hget, if_neg hlt, bfsMeasure]
        omega
  have hall : ∀ (vs : List String), (∀ v ∈ vs, v ∈ graphNodes g) →
      ∀ (st : JsMap Nat × List (String × Nat)),
      bfsMeasure g maxDepth (relaxAll depth st vs).1 (relaxAll depth st vs).2
        ≤ bfsMeasure g maxDepth st.1 st.2 := by
    intro vs
    induction vs with
    | nil =>
      intro _ st
      simp [relaxAll]
    | cons v vs ih =>
      intro hvs st
      have h1 := hstep st v (hvs v (List.mem_cons_self _ _))
      have h2 := ih (fun w hw => hvs w (List.mem_cons_of_mem _ hw))
        (relaxStep depth st v)
      simp only [relaxAll, List.foldl_cons] at *
      omega
  have hfin := hall (importersOf g file) hmem_nodes (affected, rest)
  simp only [bfsMeasure] at *
  simp only [List.length_cons]
  omega

/-- Model of `getAffectedFiles(changedFiles, graph, maxDepth = 10)` from
`src/core/dependency-graph.ts`: seed every changed file at depth 0,
then run the BFS work loop. -/
def getAffectedFiles (changedFiles : List String) (graph : DependencyGraph)
    (maxDepth : Nat := 10) : JsMap Nat :=
  bfsLoop graph maxDepth
    (changedFiles.foldl (fun m file => mapSet m file 0) [])
    (changedFiles.map (fun file => (file, 0)))

/-- Specification predicate `StepsTo g changed v n`: there is a walk of exactly `n` `importedBy`
edges from some changed path to `v`.  The shortest such `n` is the
graph distance `getAffectedFiles` is specified to record. -/
inductive StepsTo (g : DependencyGraph) (changed : List String) :
    String → Nat → Prop
  | seed {v : String} : v ∈ changed → StepsTo g changed v 0
  | step {u v : String} {n : Nat} :
      StepsTo g changed u n → v ∈ importersOf g u → StepsTo g changed v (n + 1)

/-- One-step closure of a recorded depth: every importer of `u` is
recorded at depth at most `d + 1` (only demanded below the cutoff). -/
def ClosedAt (g : DependencyGraph) (maxDepth : Nat) (affected : JsMap Nat)
    (u : String) (d : Nat) : Prop :=
  d < maxDepth → ∀ v ∈ importersOf g u,
    ∃ dv, dv ≤ d + 1 ∧ mapGet affected v = some dv

/-! ## Graph construction loop of `buildDependencyGraph`
(lines 47-85 of `src/core/dependency-graph.ts`)

The per-file import list is abstracted as a function `imp` (whatever the
cache hit or fresh extraction produced for that file — both maps are
built from the same list), and the export extraction as `exp`; file
enumeration is a list parameter.  The loop body records `imports` and
mirrors each edge into `importedBy` exactly as the source does. -/

/-- JS `Set.add` on a string set modelled as a duplicate-free list. -/
def setAdd (s : List String) (x : String) : List String :=
  if x ∈ s then s else s ++ [x]

/-- Model of `new Set(iterable)`: deduplicated insertion-ordered elements. -/
def setOfList (l : List String) : List String :=
  l.foldl setAdd []

/-- Body of the `for (const file of files)` loop: store this file's import
set, then mirror every edge into `importedBy`, then store the
file's export set. -/
def buildStep (imp : String → List String) (exp : String → List String)
    (g : DependencyGraph) (file : String) : DependencyGraph :=
  let imports := setOfList (imp file)
  let g1 : DependencyGraph :=
    { g with imports := mapSet g.imports file imports }
  let newImportedBy : JsMap (List String) :=
    imports.foldl
      (fun ib importedFile =>
        mapSet ib importedFile
          (setAdd ((mapGet ib importedFile).getD []) file))
      g1.importedBy
  let g2 : DependencyGraph := { g1 with importedBy := newImportedBy }
  { g2 with exports := mapSet g2.exports file (setOfList (exp file)) }

/-- The graph-building loop of `buildDependencyGraph`, starting from the
empty graph. -/
def buildDependencyGraph (files : List String)
    (imp : String → List String) (exp : String → List String) :
    DependencyGraph :=
  files.foldl (buildStep imp exp) (DependencyGraph.mk [] [] [])

/-! ## String and path utilities

Models of the JS string methods and Node `path` functions (POSIX
semantics, forward-slash paths) the analyzers use. -/

/-- JS `String.prototype.toLowerCase` (ASCII model). -/
def toLower (s : String) : String :=
  String.mk (s.data.map Char.toLower)

/-- Model of `.replace(/\\/g, "/")`: backslashes to forward slashes. -/
def slashify (s : String) : String :=
  String.mk (s.data.map (fun c => if c = '\\' then '/' else c))

/-- Helper for JS `String.prototype.includes` on character lists. -/
def listIncludes (pat : List Char) : List Char → Bool
  | [] => pat.isEmpty
  | c :: tl => pat.isPrefixOf (c :: tl) || listIncludes pat tl

/-- JS `String.prototype.includes`. -/
def strIncludes (s pat : String) : Bool :=
  listIncludes pat.data s.data

/-- JS `String.prototype.endsWith`. -/
def strEndsWith (s suffix : String) : Bool :=
  suffix.data.isSuffixOf s.data

/-- JS `String.prototype.startsWith`. -/
def strStartsWith (s prefixStr : String) : Bool :=
  prefixStr.data.isPrefixOf s.data

/-- Split a character list on a separator character (JS
`String.prototype.split` with a one-character separator). -/
def splitOnChar (sep : Char) : List Char → List (List Char)
  | [] => [[]]
  | c :: cs =>
    let rest := splitOnChar sep cs
    if c = sep then [] :: rest
    else
      match rest with
      | [] => [[c]]
      | r :: rs => (c :: r) :: rs

/-- JS `s.split(sep)` for a one-character separator. -/
def strSplitOnChar (s : String) (sep : Char) : List String :=
  (splitOnChar sep s.data).map String.mk

/-- JS `s.slice(n)` (ASCII model: drop the first `n` characters). -/
def strDrop (s : String) (n : Nat) : String :=
  String.mk (s.data.drop n)

/-- Join strings with a separator (kernel-reducible `intercalate`). -/
def joinWith (sep : String) : List String → String
  | [] => ""
  | [x] => x
  | x :: y :: rest => x ++ sep ++ joinWith sep (y :: rest)

/-- Path-segment normalization: drop empty and `.` segments, resolve `..`
against the accumulated stack (keeping unresolvable leading `..`). -/
def collapseDots : List String → List String → List String
  | acc, [] => acc.reverse
  | acc, s :: rest =>
    if s = "" ∨ s = "." then collapseDots acc rest
    else if s = ".." then
      match acc with
      | [] => collapseDots [".."] rest
      | a :: tl =>
        if a = ".." then collapseDots (".." :: a :: tl) rest
        else collapseDots tl rest
    else collapseDots (s :: acc) rest

/-- Node `path.join` (POSIX): concatenate and normalize; empty result is `.`. -/
def pathJoin (parts : List String) : String :=
  let isAbs := match parts with
    | p :: _ => strStartsWith p "/"
    | [] => false
  let segs := collapseDots [] (parts.flatMap (fun p => strSplitOnChar p '/'))
  let body := joinWith "/" segs
  if isAbs then "/" ++ body else if body = "" then "." else body

/-- Node `path.resolve(base, rel)` for an absolute `base` (the only way
the analyzed code calls it). -/
def pathResolve (base rel : String) : String :=
  if strStartsWith rel "/" then
    "/" ++ joinWith "/" (collapseDots [] (strSplitOnChar rel '/'))
  else
    "/" ++ joinWith "/"
      (collapseDots [] ((strSplitOnChar base '/') ++ (strSplitOnChar rel '/')))

/-- Drop the longest common prefix of two segment lists. -/
def dropCommonPrefix : List String → List String → List String × List String
  | a :: as, b :: bs =>
    if a = b then dropCommonPrefix as bs else (a :: as, b :: bs)
  | as, bs => (as, bs)

/-- Node `path.relative(from, to)` for absolute POSIX paths. -/
def pathRelative (fromPath toPath : String) : String :=
  let fs := (strSplitOnChar fromPath '/').filter (fun s => s ≠ "")
  let ts := (strSplitOnChar toPath '/').filter (fun s => s ≠ "")
  let (fRest, tRest) := dropCommonPrefix fs ts
  joinWith "/" (fRest.map (fun _ => "..") ++ tRest)

/-- Node `path.basename` (POSIX, no trailing-slash inputs). -/
def pathBasename (p : String) : String :=
  ((strSplitOnChar p '/').filter (fun s => s ≠ "")).getLastD ""

/-- Node `path.dirname` (POSIX, no trailing-slash inputs). -/
def pathDirname (p : String) : String :=
  let parts := strSplitOnChar p '/'
  if parts.length ≤ 1 then "."
  else
    let front := parts.dropLast
    if front = [""] then "/" else joinWith "/" front

/-- JS `target.replace(pat, rep)` with a one-character string pattern:
first occurrence only. -/
def replaceFirst (s : String) (pat : Char) (rep : String) : String :=
  match strSplitOnChar s pat with
  | [] => s
  | [x] => x
  | x :: y :: rest => x ++ rep ++ joinWith (String.mk [pat]) (y :: rest)

/-! ## Monorepo resolver (`src/core/monorepo.ts`, exports-aware version)

`resolvePackageImport` reads the filesystem through `existsSync` /
`statSync` and the package manifest through `readPackageJson`; these are
modelled by a `DiskEnv` (existing regular files, existing directories,
parsed manifests keyed by their absolute path, `none` for unreadable). -/

/-- The `exports` field of a manifest: a string or a flat object. -/
inductive ExportsField where
  | str (s : String)
  | obj (entries : JsMap String)
deriving Repr, DecidableEq

/-- The subset of `PackageInfo` that `resolvePackageImport` reads. -/
structure PackageInfo where
  name : Option String := none
  main : Option String := none
  module : Option String := none
  exports : Option ExportsField := none
deriving Repr, DecidableEq

/-- Model of `Workspace` from `src/types/index.ts`. -/
structure Workspace where
  name : String
  path : String
  relativePath : String
  internalDependencies : List String
  dependedBy : List String
deriving Repr, DecidableEq

/-- Model of `MonorepoInfo` from `src/types/index.ts`. -/
structure MonorepoInfo where
  isMonorepo : Bool
  rootPath : String
  type : String
  workspaces : List Workspace
  packageMap : JsMap Workspace

/-- Filesystem/manifest environment for the resolver. -/
structure DiskEnv where
  files : List String
  dirs : List String
  manifests : JsMap PackageInfo

/-- Model of `existsSync`. -/
def fsExists (env : DiskEnv) (p : String) : Bool :=
  p ∈ env.files || p ∈ env.dirs

/-- Model of `statSync(p).isDirectory()`. -/
def fsIsDir (env : DiskEnv) (p : String) : Bool :=
  p ∈ env.dirs

/-- Model of `readPackageJson(path)`: parsed manifest or `null`. -/
def readPackageJson (env : DiskEnv) (p : String) : Option PackageInfo :=
  mapGet env.manifests p

/-- Model of `getPackageNameFromImport` from the monorepo module. -/
def getPackageNameFromImport (importPath : String) : String :=
  if strStartsWith importPath "@" then
    let parts := strSplitOnChar importPath '/'
    if parts.length ≥ 2 then (parts.getD 0 "") ++ "/" ++ (parts.getD 1 "")
    else (strSplitOnChar importPath '/').getD 0 ""
  else (strSplitOnChar importPath '/').getD 0 ""

/-- Model of `resolveExports(exports, subpath)`: exact (truthy) key match first,
else the first key containing `*` whose prefix (text before the first
`*`) matches, substituting the captured suffix for the first `*` of the
target. -/
def resolveExports (e : ExportsField) (subpath : String) : Option String :=
  match e with
  | .str s => if subpath = "." then some s else none
  | .obj entries =>
    match mapGet entries subpath with
    | some target =>
      if target ≠ "" then some target
      else resolveExportsWildcard entries subpath
    | none => resolveExportsWildcard entries subpath
where
  /-- The `for (const key of Object.keys(exports))` wildcard scan. -/
  resolveExportsWildcard (entries : JsMap String) (subpath : String) :
      Option String :=
    entries.findSome? fun kv =>
      if strIncludes kv.1 "*" then
        let pre := (strSplitOnChar kv.1 '*').getD 0 ""
        if strStartsWith subpath pre then
          some (replaceFirst kv.2 '*' (strDrop subpath pre.length))
        else none
      else none

/-- The extension list of `resolveWithExtensions`. -/
def rweExtensions : List String :=
  [".ts", ".tsx", ".js", ".jsx", "/index.ts", "/index.tsx", "/index.js"]

/-- Model of `resolveWithExtensions(filePath)`: existing path (directory-index
fallback when it is a directory), else first existing extension variant. -/
def resolveWithExtensions (env : DiskEnv) (filePath : String) :
    Option String :=
  if fsExists env filePath && !(strEndsWith filePath "/") then
    if fsIsDir env filePath then
      let indexTs := pathJoin [filePath, "index.ts"]
      if fsExists env indexTs then some indexTs
      else
        let indexJs := pathJoin [filePath, "index.js"]
        if fsExists env indexJs then some indexJs
        else some filePath
    else some filePath
  else
    rweExtensions.findSome? fun ext =>
      let p := filePath ++ ext
      if fsExists env p then some p else none

/-- The `exports`-map branch (step 1) of `resolvePackageImport`. -/
def resolveViaExports (env : DiskEnv) (monorepo : MonorepoInfo)
    (ws : Workspace) (pj : PackageInfo) (subpath : String) : Option String :=
  match pj.exports with
  | none => none
  | some e =>
    match resolveExports e subpath with
    | none => none
    | some resolved =>
      let absPath := pathResolve ws.path resolved
      if fsExists env absPath then
        some (slashify (pathRelative monorepo.rootPath absPath))
      else
        match resolveWithExtensions env absPath with
        | some withExt => some (slashify (pathRelative monorepo.rootPath withExt))
        | none => none

/-- The legacy main/module/index entry-point list for the root subpath. -/
def rootEntryPoints (pj : PackageInfo) : List (Option String) :=
  [pj.main, pj.module, some "src/index.ts", some "src/index.js",
    some "index.ts", some "index.js"]

/-- Model of `resolvePackageImport(importPath, monorepo)` (exports-aware version):
extract the package name, look up its workspace and manifest, derive the
`./`-prefixed subpath, try the `exports` map, then the legacy root entry
points (root subpath) or the literal / `src/`-prefixed file (non-root). -/
def resolvePackageImport (env : DiskEnv) (importPath : String)
    (monorepo : MonorepoInfo) : Option String :=
  let packageName := getPackageNameFromImport importPath
  match mapGet monorepo.packageMap packageName with
  | none => none
  | some ws =>
    match readPackageJson env (pathResolve ws.path "package.json") with
    | none => none
    | some pj =>
      let subpath :=
        if importPath.length > packageName.length then
          let rawSubpath := strDrop importPath packageName.length
          if strStartsWith rawSubpath "/" then "." ++ rawSubpath
          else "./" ++ rawSubpath
        else "."
      match resolveViaExports env monorepo ws pj subpath with
      | some r => some r
      | none =>
        if subpath = "." then
          (rootEntryPoints pj).findSome? fun entry? =>
            match entry? with
            | none => none
            | some entry =>
              if entry = "" then none
              else
                match resolveWithExtensions env (pathResolve ws.path entry) with
                | some resolved =>
                  some (slashify (pathRelative monorepo.rootPath resolved))
                | none => none
        else
          let relativeFile := strDrop subpath 2
          match resolveWithExtensions env (pathResolve ws.path relativeFile) with
          | some resolved =>
            some (slashify (pathRelative monorepo.rootPath resolved))
          | none =>
            match resolveWithExtensions env
                (pathResolve (pathResolve ws.path "src") relativeFile) with
            | some resolvedSrc =>
              some (slashify (pathRelative monorepo.rootPath resolvedSrc))
            | none => none

/-! ## Folder conventions (`src/heuristics/folder-conventions.ts`) -/

/-- High-risk folder names. -/
def HIGH_RISK_FOLDERS : List String :=
  ["auth", "authentication", "security", "core", "database", "db",
    "config", "migrations"]

/-- Medium-risk folder names. -/
def MEDIUM_RISK_FOLDERS : List String :=
  ["services", "service", "controllers", "controller", "middleware",
    "middlewares", "api", "routes", "handlers"]

/-- Low-risk folder names. -/
def LOW_RISK_FOLDERS : List String :=
  ["utils", "helpers", "lib", "common", "shared", "types", "interfaces",
    "constants"]

/-- Test folder names. -/
def TEST_FOLDER_PATTERNS : List String :=
  ["__tests__", "test", "tests", "spec", "specs"]

/-- Split on `/` or `\` (JS `split(/[/\x5c]/)`). -/
def splitOnSlashPred (p : Char → Bool) : List Char → List (List Char)
  | [] => [[]]
  | c :: cs =>
    let rest := splitOnSlashPred p cs
    if p c then [] :: rest
    else
      match rest with
      | [] => [[c]]
      | r :: rs => (c :: r) :: rs

/-- JS `s.split(/[/\x5c]/)`. -/
def splitSlashes (s : String) : List String :=
  (splitOnSlashPred (fun c => c = '/' || c = '\\') s.data).map String.mk

/-- Model of `getModuleName(filePath)`: first path segment of the directory after
stripping the conventional root segments, else the last segment, else
`"root"`. -/
def getModuleName (filePath : String) : String :=
  let dir := pathDirname filePath
  let parts := (splitSlashes dir).filter (fun s => s ≠ "")
  let skipDirs := ["src", "lib", "app", "packages"]
  let relevantParts := parts.filter (fun q => !(skipDirs.contains q))
  match relevantParts with
  | r :: _ => r
  | [] =>
    match parts.getLast? with
    | some lastPart => if lastPart = "" then "root" else lastPart
    | none => "root"

/-- Segment-or-substring match used by `getFolderRiskLevel`. -/
def folderMatches (lowerPath folderName : String) (f : String) : Bool :=
  strIncludes lowerPath ("/" ++ f ++ "/")
    || strIncludes lowerPath ("\\" ++ f ++ "\\")
    || folderName = f

/-- Model of `getFolderRiskLevel(filePath)`: first matching tier high → medium → low. -/
def getFolderRiskLevel (filePath : String) : String :=
  let lowerPath := toLower filePath
  let dir := pathDirname lowerPath
  let folderName := pathBasename dir
  if HIGH_RISK_FOLDERS.any (folderMatches lowerPath folderName) then "high"
  else if MEDIUM_RISK_FOLDERS.any (folderMatches lowerPath folderName) then
    "medium"
  else if LOW_RISK_FOLDERS.any (folderMatches lowerPath folderName) then "low"
  else "none"

/-- Model of `isInTestFolder(filePath)`. -/
def isInTestFolder (filePath : String) : Bool :=
  let lowerPath := toLower filePath
  TEST_FOLDER_PATTERNS.any fun p =>
    strIncludes lowerPath ("/" ++ p ++ "/")
      || strIncludes lowerPath ("\\" ++ p ++ "\\")

/-- Model of `getAffectedModules(changedFiles)`: the set of module names. -/
def getAffectedModules (changedFiles : List String) : List String :=
  changedFiles.foldl (fun acc f => setAdd acc (getModuleName f)) []

/-! ## Naming conventions (`src/heuristics/naming-conventions.ts`) -/

/-- Model of `DEFAULT_TEST_PATTERNS`: `(suffix, sourceSuffix)` pairs. -/
def DEFAULT_TEST_PATTERNS : List (String × String) :=
  [(".spec.ts", ".ts"), (".spec.tsx", ".tsx"), (".spec.js", ".js"),
    (".spec.jsx", ".jsx"), (".test.ts", ".ts"), (".test.tsx", ".tsx"),
    (".test.js", ".js"), (".test.jsx", ".jsx")]

/-- Model of `isTestFile(filePath)` without a configured pattern list. -/
def isTestFile (filePath : String) : Bool :=
  let name := pathBasename filePath
  DEFAULT_TEST_PATTERNS.any (fun p => strEndsWith name p.1)
    || strIncludes filePath "__tests__/"
    || strIncludes filePath "/test/"
    || strIncludes filePath "/tests/"

/-- JS `s.slice(0, -(n))` as "keep the first `len - n` characters". -/
def strTake (s : String) (n : Nat) : String :=
  String.mk (s.data.take n)

/-- Word characters for the `\b` boundary of `/\bsrc\b/`. -/
def isWordChar (c : Char) : Bool :=
  c.isAlphanum || c = '_'

/-- Model of `dir.replace(/\bsrc\b/, rep)`: replace the first word-bounded
occurrence of `src`. -/
def replaceSrcWordAux (rep : String) (pre : List Char) :
    List Char → List Char
  | [] => pre.reverse
  | 's' :: 'r' :: 'c' :: rest =>
    if (match pre with
        | [] => true
        | c :: _ => !(isWordChar c))
      && (match rest with
          | [] => true
          | c :: _ => !(isWordChar c)) then
      pre.reverse ++ rep.data ++ rest
    else replaceSrcWordAux rep ('s' :: pre) ('r' :: 'c' :: rest)
  | c :: rest => replaceSrcWordAux rep (c :: pre) rest

/-- Model of `dir.replace(/\bsrc\b/, rep)`. -/
def replaceSrcWord (s : String) (rep : String) : String :=
  String.mk (replaceSrcWordAux rep [] s.data)

/-- Model of `getTestFilePatterns(sourceFile)` (no configured patterns): candidate
test locations in the same directory, test subdirectories, and the
mirrored `tests`/`test` sibling tree when the path contains `src`. -/
def getTestFilePatterns (sourceFile : String) : List String :=
  let dir := pathDirname sourceFile
  let name := pathBasename sourceFile
  if isTestFile sourceFile then []
  else
    let patterns := DEFAULT_TEST_PATTERNS.flatMap fun p =>
      if strEndsWith name p.2 then
        let baseName := strTake name (name.length - p.2.length)
        let testName := baseName ++ p.1
        [pathJoin [dir, testName],
          pathJoin [dir, "__tests__", testName],
          pathJoin [dir, "test", testName],
          pathJoin [dir, "tests", testName]]
          ++ (if strIncludes dir "src/" || strIncludes dir "src\\" then
                [pathJoin [replaceSrcWord dir "tests", testName],
                  pathJoin [replaceSrcWord dir "test", testName]]
              else [])
      else []
    patterns.map slashify

/-- Model of `basename(sourceFile).replace(/\.(ts|tsx|js|jsx)$/, "")`. -/
def stripExtSuffix (name : String) : String :=
  match [".ts", ".tsx", ".js", ".jsx"].find? (fun suf => strEndsWith name suf)
    with
  | some suf => strTake name (name.length - suf.length)
  | none => name

/-- The eight test suffixes matched by `/\.(spec|test)\.(ts|tsx|js|jsx)$/`. -/
def testSuffixes : List String :=
  [".spec.ts", ".spec.tsx", ".spec.js", ".spec.jsx",
    ".test.ts", ".test.tsx", ".test.js", ".test.jsx"]

/-- Model of `basename(file).replace(/\.(spec|test)\.(ts|tsx|js|jsx)$/, "")`. -/
def stripTestSuffix (name : String) : String :=
  match testSuffixes.find? (fun suf => strEndsWith name suf) with
  | some suf => strTake name (name.length - suf.length)
  | none => name

/-- The exact-candidate predicate of `matchTestFiles`'s first loop. -/
def exactNamingMatch (sourceFile file : String) : Bool :=
  let normalizedPatterns :=
    (getTestFilePatterns sourceFile).map (fun p => slashify (toLower p))
  normalizedPatterns.contains (slashify (toLower file))

/-- The fuzzy predicate of `matchTestFiles`'s second loop. -/
def fuzzyNamingMatch (sourceFile file : String) : Bool :=
  isTestFile file
    && stripTestSuffix (pathBasename file)
      = stripExtSuffix (pathBasename sourceFile)

/-- Model of `matchTestFiles(sourceFile, allFiles)`: exact candidate matches in
`allFiles` order, then fuzzy base-name matches not already collected. -/
def matchTestFiles (sourceFile : String) (allFiles : List String) :
    List String :=
  let matches1 := allFiles.foldl
    (fun acc file =>
      if exactNamingMatch sourceFile file then acc ++ [file] else acc) []
  allFiles.foldl
    (fun acc file =>
      if fuzzyNamingMatch sourceFile file && !(acc.contains file) then
        acc ++ [file]
      else acc)
    matches1

/-! ## Risk calculator (`src/analyzers/risk-calculator.ts`) -/

/-- Model of `ChangedFile` from `src/types/index.ts`. -/
structure ChangedFile where
  path : String
  changeType : String := "modified"
  oldPath : Option String := none
deriving Repr, DecidableEq

/-- Model of `RiskSignal` from `src/types/index.ts`. -/
structure RiskSignal where
  signal : String
  weight : Nat
  description : String
deriving Repr, DecidableEq

/-- Model of `RiskAssessment` from `src/types/index.ts` (`level` is one of
`"LOW"`, `"MEDIUM"`, `"HIGH"`). -/
structure RiskAssessment where
  level : String
  score : Nat
  signals : List RiskSignal
  summary : String
deriving Repr, DecidableEq

/-- Constant `THRESHOLDS.LOW`: `score <= 3` is LOW. -/
def THRESHOLDS_LOW : Nat := 3

/-- Constant `THRESHOLDS.MEDIUM`: `score <= 7` is MEDIUM (`> 7` is HIGH). -/
def THRESHOLDS_MEDIUM : Nat := 7

/-- The `WEIGHTS` table. -/
structure RiskWeights where
  highRiskFolder : Nat
  mediumRiskFolder : Nat
  authSecurityFile : Nat
  databaseFile : Nat
  configFile : Nat
  sharedUtility : Nat
  multipleModules : Nat
  manyFilesChanged : Nat
  manyTestsImpacted : Nat
  coreFile : Nat

/-- The `WEIGHTS` constant of `src/analyzers/risk-calculator.ts`. -/
def WEIGHTS : RiskWeights :=
  { highRiskFolder := 3, mediumRiskFolder := 1, authSecurityFile := 4,
    databaseFile := 3, configFile := 2, sharedUtility := 2,
    multipleModules := 2, manyFilesChanged := 1, manyTestsImpacted := 1,
    coreFile := 3 }

/-- Auth/security path keywords (check 2). -/
def authPatterns : List String :=
  ["auth", "security", "password", "token", "jwt", "session", "login",
    "permission"]

/-- Database path keywords (check 3). -/
def dbPatterns : List String :=
  ["database", "migration", "schema", "model", "entity", "repository",
    ".sql"]

/-- Config path keywords (check 4). -/
def configPatterns : List String :=
  ["config", ".env", "settings", "constants"]

/-- Shared-utility path segments (check 5). -/
def utilPatterns : List String :=
  ["utils", "helpers", "lib", "shared", "common"]

/-- Core path segments / filename prefixes (check 6). -/
def corePatterns : List String :=
  ["core", "kernel", "base", "main", "app"]

/-- Stable descending insertion by a numeric key (model of JS
`Array.prototype.sort` with comparator `(a, b) => key(b) - key(a)`,
which sorts descending and is stable). -/
def insertDescBy {α : Type} (key : α → Nat) (x : α) : List α → List α
  | [] => [x]
  | y :: ys => if key y < key x then x :: y :: ys else y :: insertDescBy key x ys

/-- Stable descending sort by a numeric key. -/
def sortDescBy {α : Type} (key : α → Nat) (l : List α) : List α :=
  l.foldl (fun acc x => insertDescBy key x acc) []

/-- Model of `generateSummary(level, signals)`: level prefix plus the top three
signal descriptions (text before the first colon).  Note that
`signals.sort(...)` in the source mutates the caller's array. -/
def generateSummary (level : String) (signals : List RiskSignal) : String :=
  if signals.isEmpty then
    level ++ " risk: No significant risk signals detected"
  else
    let topSignals := joinWith ", "
      (((sortDescBy (fun s => s.weight) signals).take 3).map
        (fun s => (strSplitOnChar s.description ':').getD 0 ""))
    level ++ " risk: " ++ topSignals

/-- One file of the folder-risk check (check 1). -/
def folderRiskStep (acc : List RiskSignal × Nat) (file : ChangedFile) :
    List RiskSignal × Nat :=
  let folderRisk := getFolderRiskLevel file.path
  if folderRisk = "high" then
    (acc.1 ++ [RiskSignal.mk "high_risk_folder" WEIGHTS.highRiskFolder
        ("High-risk folder: " ++ file.path)],
      acc.2 + WEIGHTS.highRiskFolder)
  else if folderRisk = "medium" then
    (acc.1 ++ [RiskSignal.mk "medium_risk_folder" WEIGHTS.mediumRiskFolder
        ("Medium-risk folder: " ++ file.path)],
      acc.2 + WEIGHTS.mediumRiskFolder)
  else acc

/-- The per-file folder-risk accumulation (check 1): one `+3` signal per
high-risk file, one `+1` signal per medium-risk file, in file order. -/
def folderRiskFold (sourceFiles : List ChangedFile) :
    List RiskSignal × Nat :=
  sourceFiles.foldl folderRiskStep ([], 0)

/-- A `for ... if ... break` keyword check (checks 2-6): add one signal
for the first matching source file, if any. -/
def keywordCheck (st : List RiskSignal × Nat) (sourceFiles : List ChangedFile)
    (matchFile : ChangedFile → Bool) (tag : String) (weight : Nat)
    (describe : ChangedFile → String) : List RiskSignal × Nat :=
  match sourceFiles.find? matchFile with
  | some file =>
    (st.1 ++ [RiskSignal.mk tag weight (describe file)], st.2 + weight)
  | none => st

/-- Check 7: distinct affected modules. -/
def moduleCountCheck (st : List RiskSignal × Nat)
    (sourceFiles : List ChangedFile) : List RiskSignal × Nat :=
  let affectedModules := getAffectedModules (sourceFiles.map (fun f => f.path))
  if affectedModules.length > 1 then
    let additionalModules := affectedModules.length - 1
    let w := WEIGHTS.multipleModules * additionalModules
    (st.1 ++ [RiskSignal.mk "multiple_modules" w
        ("Changes span " ++ toString affectedModules.length
          ++ " modules: " ++ joinWith ", " affectedModules)],
      st.2 + w)
  else st

/-- Check 8: number of source files changed. -/
def manyFilesCheck (st : List RiskSignal × Nat)
    (sourceFiles : List ChangedFile) : List RiskSignal × Nat :=
  if sourceFiles.length ≥ 5 then
    let w := min (sourceFiles.length - 4) 3
    (st.1 ++ [RiskSignal.mk "many_files" w
        (toString sourceFiles.length ++ " source files changed")],
      st.2 + w)
  else st

/-- Level thresholds: `score <= 3` LOW, `<= 7` MEDIUM, else HIGH. -/
def riskLevelOf (score : Nat) : String :=
  if score ≤ THRESHOLDS_LOW then "LOW"
  else if score ≤ THRESHOLDS_MEDIUM then "MEDIUM"
  else "HIGH"

/-- The auth/security match predicate of check 2. -/
def authMatch (f : ChangedFile) : Bool :=
  authPatterns.any (fun p => strIncludes (toLower f.path) p)

/-- The database match predicate of check 3. -/
def dbMatch (f : ChangedFile) : Bool :=
  dbPatterns.any (fun p => strIncludes (toLower f.path) p)

/-- The config match predicate of check 4. -/
def configMatch (f : ChangedFile) : Bool :=
  configPatterns.any (fun p => strIncludes (toLower f.path) p)

/-- The shared-utility segment match predicate of check 5. -/
def utilMatch (f : ChangedFile) : Bool :=
  utilPatterns.any fun p =>
    strIncludes (toLower f.path) ("/" ++ p ++ "/")
      || strIncludes (toLower f.path) ("\\" ++ p ++ "\\")

/-- The core segment/filename-prefix match predicate of check 6. -/
def coreMatch (f : ChangedFile) : Bool :=
  let lowerPath := toLower f.path
  let fileName := (splitSlashes lowerPath).getLastD ""
  corePatterns.any fun p =>
    strIncludes lowerPath ("/" ++ p ++ "/") || strStartsWith fileName p

/-- Checks 1-8 of `riskCalculator.analyze`, accumulating the signal list
and the score. -/
def riskChecks (sourceFiles : List ChangedFile) : List RiskSignal × Nat :=
  let st1 := folderRiskFold sourceFiles
  let st2 := keywordCheck st1 sourceFiles authMatch
    "auth_security" WEIGHTS.authSecurityFile
    (fun f => "Authentication/security file modified: " ++ f.path)
  let st3 := keywordCheck st2 sourceFiles dbMatch
    "database" WEIGHTS.databaseFile
    (fun f => "Database-related file modified: " ++ f.path)
  let st4 := keywordCheck st3 sourceFiles configMatch
    "config" WEIGHTS.configFile
    (fun f => "Configuration file modified: " ++ f.path)
  let st5 := keywordCheck st4 sourceFiles utilMatch
    "shared_utility" WEIGHTS.sharedUtility
    (fun f => "Shared utility modified: " ++ f.path)
  let st6 := keywordCheck st5 sourceFiles coreMatch
    "core_file" WEIGHTS.coreFile
    (fun f => "Core file modified: " ++ f.path)
  let st7 := moduleCountCheck st6 sourceFiles
  manyFilesCheck st7 sourceFiles

/-- Model of `riskCalculator.analyze(context)`: filter out test files, short
circuit for test-only diffs, run checks 1-8, and derive the level and
summary.  The returned `signals` are weight-sorted because
`generateSummary` sorts the array in place. -/
def riskAnalyze (changedFiles : List ChangedFile) : RiskAssessment :=
  let sourceFiles := changedFiles.filter (fun f => !(isTestFile f.path))
  if sourceFiles.isEmpty then
    { level := "LOW", score := 0,
      signals := [RiskSignal.mk "only_tests" 0 "Only test files were modified"],
      summary := "Low risk: Only test files were modified" }
  else
    let st8 := riskChecks sourceFiles
    let level := riskLevelOf st8.2
    { level := level, score := st8.2,
      signals := sortDescBy (fun s => s.weight) st8.1,
      summary := generateSummary level st8.1 }

/-! ## Unit test analyzer (unit-test-analyzer module)

`analyze(context)` builds a `Map<string, ImpactReason[]>` through
`addImpact` from five sources (the fourth loop in the source inspects
the importer sets but its body is empty — a structural no-op), converts it to
`ImpactedFile[]` and sorts by reason count. -/

/-- Model of `ImpactReason` from `src/types/index.ts` (`type` is one of the six
reason tags). -/
structure ImpactReason where
  type : String
  description : String
  relatedFile : Option String := none
deriving Repr, DecidableEq

/-- Model of `ImpactedFile` from `src/types/index.ts`. -/
structure ImpactedFile where
  path : String
  reasons : List ImpactReason
deriving Repr, DecidableEq

/-- Model of `addImpact` of the unit-test analyzer: append the reason unless one
with the same `type` and `relatedFile` is already recorded. -/
def addImpact (m : JsMap (List ImpactReason)) (testFile : String)
    (reason : ImpactReason) : JsMap (List ImpactReason) :=
  let m1 := if mapHas m testFile then m else mapSet m testFile []
  let reasons := (mapGet m1 testFile).getD []
  let isDuplicate := reasons.any fun r =>
    r.type == reason.type && r.relatedFile == reason.relatedFile
  if isDuplicate then m1 else mapSet m1 testFile (reasons ++ [reason])

/-- Model of `addImpact` of the shared-utility module: the duplicate key also
includes `description`. -/
def sharedAddImpact (m : JsMap (List ImpactReason)) (file : String)
    (reason : ImpactReason) : JsMap (List ImpactReason) :=
  let m1 := if mapHas m file then m else mapSet m file []
  let reasons := (mapGet m1 file).getD []
  let isDuplicate := reasons.any fun r =>
    r.type == reason.type && r.description == reason.description
      && r.relatedFile == reason.relatedFile
  if isDuplicate then m1 else mapSet m1 file (reasons ++ [reason])

/-- Model of `getDirname(path)` of the unit-test analyzer. -/
def getDirname (path : String) : String :=
  let parts := strSplitOnChar (slashify path) '/'
  joinWith "/" parts.dropLast

/-- JS truthiness guard on a string-or-null value (`x || null` and
`x || undefined`: the empty string is falsy). -/
def truthyString (s : Option String) : Option String :=
  match s with
  | some str => if str = "" then none else some str
  | none => none

/-- Model of `findClosestChangedDependency(file, changedPaths, graph)`: first
changed direct import, else first changed two-hop import, else
`changedPaths[0] || null`. -/
def findClosestChangedDependency (file : String) (changedPaths : List String)
    (g : DependencyGraph) : Option String :=
  match mapGet g.imports file with
  | none => none
  | some imports =>
    match imports.find? (fun imp => changedPaths.contains imp) with
    | some imp => some imp
    | none =>
      match imports.findSome? (fun imp =>
          ((mapGet g.imports imp).getD []).find?
            (fun subImp => changedPaths.contains subImp)) with
      | some subImp => some subImp
      | none => truthyString changedPaths.head?

/-- Step 1: direct test-file changes. -/
def impactStep1 (changedFiles : List ChangedFile)
    (m : JsMap (List ImpactReason)) : JsMap (List ImpactReason) :=
  changedFiles.foldl
    (fun m file =>
      if isTestFile file.path || isInTestFolder file.path then
        addImpact m file.path
          (ImpactReason.mk "direct_change" "Test file was directly modified"
            none)
      else m)
    m

/-- Step 2: naming-convention matches of every non-test changed file. -/
def impactStep2 (changedFiles : List ChangedFile) (allFiles : List String)
    (m : JsMap (List ImpactReason)) : JsMap (List ImpactReason) :=
  changedFiles.foldl
    (fun m file =>
      if isTestFile file.path then m
      else
        (matchTestFiles file.path allFiles).foldl
          (fun m testFile =>
            addImpact m testFile
              (ImpactReason.mk "naming_convention"
                "Test matches source file naming pattern" (some file.path)))
          m)
    m

/-- Step 3: import-graph traversal over the affected-files map. -/
def impactStep3 (changedPaths : List String) (graph : DependencyGraph)
    (m : JsMap (List ImpactReason)) : JsMap (List ImpactReason) :=
  (getAffectedFiles changedPaths graph).foldl
    (fun m entry =>
      if isTestFile entry.1 || isInTestFolder entry.1 then
        let changedDep :=
          findClosestChangedDependency entry.1 changedPaths graph
        addImpact m entry.1
          (ImpactReason.mk "imports_changed"
            (if entry.2 = 1 then "Directly imports changed file"
              else "Transitively imports changed file (depth: "
                ++ toString entry.2 ++ ")")
            (truthyString changedDep))
      else m)
    m

/-- Step 5: co-located tests in a test subfolder of a changed file's
directory, skipping files already recorded. -/
def impactStep5 (changedFiles : List ChangedFile) (allFiles : List String)
    (m : JsMap (List ImpactReason)) : JsMap (List ImpactReason) :=
  changedFiles.foldl
    (fun m file =>
      if isTestFile file.path then m
      else
        let sourceDir := getDirname file.path
        allFiles.foldl
          (fun m testFile =>
            if !(isTestFile testFile) then m
            else if mapHas m testFile then m
            else
              let testDir := getDirname testFile
              if testDir = sourceDir ++ "/__tests__"
                  || testDir = sourceDir ++ "/test"
                  || testDir = sourceDir ++ "/tests" then
                addImpact m testFile
                  (ImpactReason.mk "folder_convention"
                    "Co-located in test subfolder of changed module"
                    (some file.path))
              else m)
          m)
    m

/-- Model of `unitTestAnalyzer.analyze(context)`. -/
def unitTestAnalyze (changedFiles : List ChangedFile)
    (graph : DependencyGraph) (allFiles : List String) : List ImpactedFile :=
  let changedPaths := changedFiles.map (fun f => f.path)
  let m1 := impactStep1 changedFiles []
  let m2 := impactStep2 changedFiles allFiles m1
  let m3 := impactStep3 changedPaths graph m2
  let m5 := impactStep5 changedFiles allFiles m3
  let results := m5.map (fun p => ImpactedFile.mk p.1 p.2)
  sortDescBy (fun f => f.reasons.length) results

/-! ## Concrete instances used by the specified examples -/

/-- Graph with `imports = {b: [a]}, importedBy = {a: [b]}`. -/
def pairGraph : DependencyGraph :=
  DependencyGraph.mk [("b", ["a"])] [("a", ["b"])] []

/-- The 3-hop chain `a ← b ← c ← d`. -/
def chainGraph : DependencyGraph :=
  DependencyGraph.mk
    [("b", ["a"]), ("c", ["b"]), ("d", ["c"])]
    [("a", ["b"]), ("b", ["c"]), ("c", ["d"])] []

/-- The mutual cycle `a ↔ b` (importedBy mirrored both ways). -/
def cycleGraph : DependencyGraph :=
  DependencyGraph.mk
    [("a", ["b"]), ("b", ["a"])]
    [("a", ["b"]), ("b", ["a"])] []

/-- Workspace `@app/ui` of the monorepo exports example. -/
def uiWorkspace : Workspace :=
  { name := "@app/ui", path := "/repo/packages/ui",
    relativePath := "packages/ui", internalDependencies := [],
    dependedBy := [] }

/-- Workspace `@app/lib` (wildcard exports). -/
def libWorkspace : Workspace :=
  { name := "@app/lib", path := "/repo/packages/lib",
    relativePath := "packages/lib", internalDependencies := [],
    dependedBy := [] }

/-- Workspace `@app/utils` (no exports map). -/
def utilsWorkspace : Workspace :=
  { name := "@app/utils", path := "/repo/packages/utils",
    relativePath := "packages/utils", internalDependencies := [],
    dependedBy := [] }

/-- On-disk layout of the monorepo exports example. -/
def monorepoEnv : DiskEnv :=
  { files := ["/repo/package.json",
      "/repo/packages/ui/package.json",
      "/repo/packages/ui/index.ts",
      "/repo/packages/ui/src/button.ts",
      "/repo/packages/lib/package.json",
      "/repo/packages/lib/src/util.ts",
      "/repo/packages/utils/package.json",
      "/repo/packages/utils/src/index.ts"],
    dirs := ["/repo", "/repo/packages", "/repo/packages/ui",
      "/repo/packages/ui/src", "/repo/packages/lib",
      "/repo/packages/lib/src", "/repo/packages/utils",
      "/repo/packages/utils/src"],
    manifests := [("/repo/packages/ui/package.json",
        { name := some "@app/ui",
          exports := some (ExportsField.obj
            [(".", "./index.ts"), ("./button", "./src/button.ts")]) }),
      ("/repo/packages/lib/package.json",
        { name := some "@app/lib",
          exports := some (ExportsField.obj [("./*", "./src/*.ts")]) }),
      ("/repo/packages/utils/package.json",
        { name := some "@app/utils" })] }

/-- The detected monorepo of the exports example. -/
def monorepoExample : MonorepoInfo :=
  { isMonorepo := true, rootPath := "/repo", type := "npm",
    workspaces := [uiWorkspace, libWorkspace, utilsWorkspace],
    packageMap := [("@app/ui", uiWorkspace), ("@app/lib", libWorkspace),
      ("@app/utils", utilsWorkspace)] }

/-! # Theorems -/

theorem mapGet_mapSet_self {α : Type} (m : JsMap α) (k : String) (v : α) :
    mapGet (mapSet m k v) k = some v := by
  induction m with
  | nil => simp [mapSet, mapGet]
  | cons p rest ih =>
    by_cases h : p.1 = k <;> simp [mapSet, mapGet, h, ih]

theorem mapGet_mapSet_other {α : Type} (m : JsMap α) (k k' : String) (v : α)
    (hne : k ≠ k') : mapGet (mapSet m k v) k' = mapGet m k' := by
  induction m with
  | nil => simp [mapSet, mapGet, hne]
  | cons p rest ih =>
    by_cases h : p.1 = k
    · subst h
      simp [mapSet, mapGet, hne]
    · simp only [mapSet, if_neg h]
      by_cases h' : p.1 = k' <;> simp [mapGet, h', ih]

theorem mapGet_mapSet {α : Type} (m : JsMap α) (k k' : String) (v : α) :
    mapGet (mapSet m k v) k' = if k = k' then some v else mapGet m k' := by
  by_cases h : k = k'
  · subst h; simp [mapGet_mapSet_self]
  · simp [h, mapGet_mapSet_other m k k' v h]

theorem mapGet_mem {α : Type} {m : JsMap α} {k : String} {v : α}
    (h : mapGet m k = some v) : (k, v) ∈ m := by
  induction m with
  | nil => simp [mapGet] at h
  | cons p rest ih =>
    by_cases hk : p.1 = k
    · simp [mapGet, hk] at h
      have hp : p = (k, v) := by cases p; simp_all
      rw [hp]
      exact List.mem_cons_self _ _
    · simp [mapGet, hk] at h
      exact List.mem_cons_of_mem _ (ih h)

theorem relaxStep_spec (depth : Nat) (st : JsMap Nat × List (String × Nat))
    (v : String) :
    (mapGet st.1 v = none
        ∧ relaxStep depth st v
          = (mapSet st.1 v (depth + 1), st.2 ++ [(v, depth + 1)]))
    ∨ (∃ dv, mapGet st.1 v = some dv ∧ depth + 1 < dv
        ∧ relaxStep depth st v
          = (mapSet st.1 v (depth + 1), st.2 ++ [(v, depth + 1)]))
    ∨ (∃ dv, mapGet st.1 v = some dv ∧ ¬ depth + 1 < dv
        ∧ relaxStep depth st v = st) := by
  cases hget : mapGet st.1 v with
  | none =>
    left
    exact ⟨rfl, by simp [relaxStep, hget]⟩
  | some dv =>
    by_cases hlt : depth + 1 < dv
    · right; left
      exact ⟨dv, rfl, hlt, by simp [relaxStep, hget, hlt]⟩
    · right; right
      exact ⟨dv, rfl, hlt, by simp [relaxStep, hget, hlt]⟩

theorem relaxAll_queue_mono (depth : Nat) (vs : List String) :
    ∀ (st : JsMap Nat × List (String × Nat)) {q : String × Nat},
    q ∈ st.2 → q ∈ (relaxAll depth st vs).2 := by
  induction vs with
  | nil => intro st q hq; exact hq
  | cons v vs ih =>
    intro st q hq
    simp only [relaxAll, List.foldl_cons]
    apply ih
    rcases relaxStep_spec depth st v with ⟨_, heq⟩ | ⟨dv, _, _, heq⟩
        | ⟨dv, _, _, heq⟩ <;> rw [heq]
    · exact List.mem_append_left _ hq
    · exact List.mem_append_left _ hq
    · exact hq

theorem relaxAll_mono (depth : Nat) (vs : List String) :
    ∀ (st : JsMap Nat × List (String × Nat)) {w : String} {d : Nat},
    mapGet st.1 w = some d →
    ∃ d', d' ≤ d ∧ mapGet (relaxAll depth st vs).1 w = some d' := by
  induction vs with
  | nil => intro st w d h; exact ⟨d, le_refl d, h⟩
  | cons v vs ih =>
    intro st w d h
    simp only [relaxAll, List.foldl_cons]
    rcases relaxStep_spec depth st v with ⟨hnone, heq⟩ | ⟨dv, hsome, hlt, heq⟩
        | ⟨dv, _, _, heq⟩
    · by_cases hw : v = w
      · rw [hw, h] at hnone
        cases hnone
      · have h' : mapGet (relaxStep depth st v).1 w = some d := by
          rw [heq]
          simpa [mapGet_mapSet_other _ _ _ _ hw] using h
        exact ih _ h'
    · by_cases hw : v = w
      · subst hw
        rw [h] at hsome
        cases hsome
        have h' : mapGet (relaxStep depth st v).1 v = some (depth + 1) := by
          rw [heq]
          simpa using mapGet_mapSet_self st.1 v (depth + 1)
        obtain ⟨d', hd', hres⟩ := ih _ h'
        exact ⟨d', by omega, hres⟩
      · have h' : mapGet (relaxStep depth st v).1 w = some d := by
          rw [heq]
          simpa [mapGet_mapSet_other _ _ _ _ hw] using h
        exact ih _ h'
    · rw [heq] at *
      exact ih _ h

theorem relaxAll_vals (depth : Nat) (vs : List String) :
    ∀ (st : JsMap Nat × List (String × Nat)) {w : String} {d : Nat},
    mapGet (relaxAll depth st vs).1 w = some d →
    mapGet st.1 w = some d
      ∨ ((w, d) ∈ (relaxAll depth st vs).2 ∧ d = depth + 1 ∧ w ∈ vs) := by
  induction vs with
  | nil => intro st w d h; exact Or.inl h
  | cons v vs ih =>
    intro st w d h
    simp only [relaxAll, List.foldl_cons] at h ⊢
    rcases ih (relaxStep depth st v) h with h1 | ⟨hq, hd, hw⟩
    · rcases relaxStep_spec depth st v with ⟨hnone, heq⟩
          | ⟨dv, hsome, hlt, heq⟩ | ⟨dv, _, _, heq⟩
      · by_cases hw : v = w
        · subst hw
          rw [heq] at h1
          simp only at h1
          rw [mapGet_mapSet_self] at h1
          cases h1
          refine Or.inr ⟨?_, rfl, List.mem_cons_self _ _⟩
          apply relaxAll_queue_mono
          rw [heq]
          exact List.mem_append_right _ (List.mem_cons_self _ _)
        · rw [heq] at h1
          simp only at h1
          rw [mapGet_mapSet_other _ _ _ _ hw] at h1
          exact Or.inl h1
      · by_cases hw : v = w
        · subst hw
          rw [heq] at h1
          simp only at h1
          rw [mapGet_mapSet_self] at h1
          cases h1
          refine Or.inr ⟨?_, rfl, List.mem_cons_self _ _⟩
          apply relaxAll_queue_mono
          rw [heq]
          exact List.mem_append_right _ (List.mem_cons_self _ _)
        · rw [heq] at h1
          simp only at h1
          rw [mapGet_mapSet_other _ _ _ _ hw] at h1
          exact Or.inl h1
      · rw [heq] at h1
        exact Or.inl h1
    · exact Or.inr ⟨hq, hd, List.mem_cons_of_mem _ hw⟩

theorem relaxAll_after (depth : Nat) (vs : List String) :
    ∀ (st : JsMap Nat × List (String × Nat)) (w : String), w ∈ vs →
    ∃ dw, dw ≤ depth + 1 ∧ mapGet (relaxAll depth st vs).1 w = some dw := by
  induction vs with
  | nil => intro st w hw; simp at hw
  | cons v vs ih =>
    intro st w hw
    simp only [relaxAll, List.foldl_cons]
    rcases List.mem_cons.mp hw with hwv | hwv
    · subst hwv
      have hst' : ∃ d0, d0 ≤ depth + 1
          ∧ mapGet (relaxStep depth st w).1 w = some d0 := by
        rcases relaxStep_spec depth st w with ⟨_, heq⟩ | ⟨dv, _, _, heq⟩
            | ⟨dv, hsome, hnlt, heq⟩
        · refine ⟨depth + 1, le_refl _, ?_⟩
          rw [heq]
          exact mapGet_mapSet_self st.1 w (depth + 1)
        · refine ⟨depth + 1, le_refl _, ?_⟩
          rw [heq]
          exact mapGet_mapSet_self st.1 w (depth + 1)
        · refine ⟨dv, by omega, ?_⟩
          rw [heq]
          exact hsome
      obtain ⟨d0, hd0, hget⟩ := hst'
      obtain ⟨d', hd', hres⟩ := relaxAll_mono depth vs _ hget
      exact ⟨d', by omega, hres⟩
    · exact ih (relaxStep depth st v) w hwv

theorem relaxAll_queue_src (depth : Nat) (vs : List String) :
    ∀ (st : JsMap Nat × List (String × Nat)) {q : String × Nat},
    q ∈ (relaxAll depth st vs).2 →
    q ∈ st.2 ∨ (q.2 = depth + 1 ∧ q.1 ∈ vs) := by
  induction vs with
  | nil => intro st q hq; exact Or.inl hq
  | cons v vs ih =>
    intro st q hq
    simp only [relaxAll, List.foldl_cons] at hq
    rcases ih (relaxStep depth st v) hq with h1 | ⟨hd, hw⟩
    · rcases relaxStep_spec depth st v with ⟨_, heq⟩ | ⟨dv, _, _, heq⟩
          | ⟨dv, _, _, heq⟩
      · rw [heq] at h1
        rcases List.mem_append.mp h1 with h2 | h2
        · exact Or.inl h2
        · simp at h2
          subst h2
          exact Or.inr ⟨rfl, List.mem_cons_self _ _⟩
      · rw [heq] at h1
        rcases List.mem_append.mp h1 with h2 | h2
        · exact Or.inl h2
        · simp at h2
          subst h2
          exact Or.inr ⟨rfl, List.mem_cons_self _ _⟩
      · rw [heq] at h1
        exact Or.inl h1
    · exact Or.inr ⟨hd, List.mem_cons_of_mem _ hw⟩

theorem bfsLoop_sound (g : DependencyGraph) (changed : List String)
    (md : Nat) :
    ∀ (affected : JsMap Nat) (queue : List (String × Nat)),
    (∀ v d, mapGet affected v = some d → StepsTo g changed v d ∧ d ≤ md) →
    (∀ p ∈ queue, StepsTo g changed p.1 p.2 ∧ p.2 ≤ md) →
    ∀ v d, mapGet (bfsLoop g md affected queue) v = some d →
      StepsTo g changed v d ∧ d ≤ md := by
  intro affected queue
  induction affected, queue using bfsLoop.induct g md with
  | case1 affected =>
    intro hA _ v d h
    simp only [bfsLoop] at h
    exact hA v d h
  | case2 affected file depth rest hle ih =>
    intro hA hQ v d h
    simp only [bfsLoop, if_pos hle] at h
    exact ih hA (fun p hp => hQ p (List.mem_cons_of_mem _ hp)) v d h
  | case3 affected file depth rest hle ih =>
    intro hA hQ v d h
    simp only [bfsLoop, if_neg hle] at h
    have hfile := hQ (file, depth) (List.mem_cons_self _ _)
    apply ih ?_ ?_ v d h
    · intro w dd hw
      rcases relaxAll_vals depth (importersOf g file) (affected, rest) hw
        with hold | ⟨_, hdd, hwin⟩
      · exact hA w dd hold
      · subst hdd
        exact ⟨StepsTo.step hfile.1 hwin, by omega⟩
    · intro p hp
      rcases relaxAll_queue_src depth (importersOf g file) (affected, rest) hp
        with hold | ⟨hdd, hwin⟩
      · exact hQ p (List.mem_cons_of_mem _ hold)
      · rw [hdd]
        refine ⟨?_, by omega⟩
        have : StepsTo g changed p.1 (depth + 1) := StepsTo.step hfile.1 hwin
        exact this

theorem bfsLoop_mono (g : DependencyGraph) (md : Nat) :
    ∀ (affected : JsMap Nat) (queue : List (String × Nat)) (w : String)
      (d : Nat),
    mapGet affected w = some d →
    ∃ d', d' ≤ d ∧ mapGet (bfsLoop g md affected queue) w = some d' := by
  intro affected queue
  induction affected, queue using bfsLoop.induct g md with
  | case1 affected =>
    intro w d h
    simp only [bfsLoop]
    exact ⟨d, le_refl d, h⟩
  | case2 affected file depth rest hle ih =>
    intro w d h
    simp only [bfsLoop, if_pos hle]
    exact ih w d h
  | case3 affected file depth rest hle ih =>
    intro w d h
    simp only [bfsLoop, if_neg hle]
    obtain ⟨d1, hd1, h1⟩ :=
      relaxAll_mono depth (importersOf g file) (affected, rest) h
    obtain ⟨d2, hd2, h2⟩ := ih w d1 h1
    exact ⟨d2, by omega, h2⟩

theorem bfsLoop_closed (g : DependencyGraph) (md : Nat) :
    ∀ (affected : JsMap Nat) (queue : List (String × Nat)),
    (∀ u d, mapGet affected u = some d →
      ((u, d) ∈ queue ∨ ClosedAt g md affected u d)) →
    ∀ u d, mapGet (bfsLoop g md affected queue) u = some d →
      ClosedAt g md (bfsLoop g md affected queue) u d := by
  intro affected queue
  induction affected, queue using bfsLoop.induct g md with
  | case1 affected =>
    intro hB u d h
    simp only [bfsLoop] at h ⊢
    rcases hB u d h with hmem | hcl
    · simp at hmem
    · exact hcl
  | case2 affected file depth rest hle ih =>
    intro hB u d h
    simp only [bfsLoop, if_pos hle] at h ⊢
    apply ih ?_ u d h
    intro u' d' h'
    rcases hB u' d' h' with hmem | hcl
    · rcases List.mem_cons.mp hmem with heq | hrest
      · right
        intro hlt
        rw [Prod.mk.injEq] at heq
        omega
      · exact Or.inl hrest
    · exact Or.inr hcl
  | case3 affected file depth rest hle ih =>
    intro hB u d h
    simp only [bfsLoop, if_neg hle] at h ⊢
    apply ih ?_ u d h
    intro u' d' h'
    rcases relaxAll_vals depth (importersOf g file) (affected, rest) h'
      with hold | ⟨hq, _, _⟩
    · rcases hB u' d' hold with hmem | hcl
      · rcases List.mem_cons.mp hmem with heq | hrest
        · right
          rw [Prod.mk.injEq] at heq
          intro _ w hw
          obtain ⟨dw, hdw, hgetw⟩ := relaxAll_after depth (importersOf g file)
            (affected, rest) w (by rw [heq.1] at hw; exact hw)
          exact ⟨dw, by omega, hgetw⟩
        · left
          exact relaxAll_queue_mono depth (importersOf g file)
            (affected, rest) hrest
      · right
        intro hlt w hw
        obtain ⟨dw, hdw, hgetw⟩ := hcl hlt w hw
        obtain ⟨dw', hdw', hgetw'⟩ :=
          relaxAll_mono depth (importersOf g file) (affected, rest) hgetw
        exact ⟨dw', by omega, hgetw'⟩
    · exact Or.inl hq

theorem initMap_get (changed : List String) :
    ∀ (m : JsMap Nat) (v : String),
    mapGet (changed.foldl (fun acc file => mapSet acc file 0) m) v
      = if v ∈ changed then some 0 else mapGet m v := by
  induction changed with
  | nil => intro m v; simp
  | cons c cs ih =>
    intro m v
    simp only [List.foldl_cons]
    rw [ih]
    by_cases hv : v ∈ cs
    · simp [hv]
    · rw [mapGet_mapSet]
      by_cases hc : c = v
      · simp [hv, hc]
      · have hvc : ¬ v = c := fun h => hc h.symm
        simp [hv, hc, hvc, List.mem_cons]

theorem getAffectedFiles_sound (g : DependencyGraph) (changed : List String)
    (md : Nat) (v : String) (d : Nat)
    (h : mapGet (getAffectedFiles changed g md) v = some d) :
    StepsTo g changed v d ∧ d ≤ md := by
  apply bfsLoop_sound g changed md _ _ ?_ ?_ v d h
  · intro w dd hw
    rw [initMap_get] at hw
    by_cases hmem : w ∈ changed
    · rw [if_pos hmem] at hw
      cases hw
      exact ⟨StepsTo.seed hmem, by omega⟩
    · rw [if_neg hmem] at hw
      simp [mapGet] at hw
  · intro p hp
    obtain ⟨c, hc, rfl⟩ := List.mem_map.mp hp
    exact ⟨StepsTo.seed hc, by omega⟩

theorem getAffectedFiles_seed (g : DependencyGraph) (changed : List String)
    (md : Nat) {c : String} (hc : c ∈ changed) :
    mapGet (getAffectedFiles changed g md) c = some 0 := by
  have h0 : mapGet (changed.foldl (fun acc file => mapSet acc file 0) []) c
      = some 0 := by
    rw [initMap_get]
    simp [hc]
  obtain ⟨d', hd', hres⟩ := bfsLoop_mono g md _
    (changed.map (fun file => (file, 0))) c 0 h0
  have : d' = 0 := by omega
  rw [this] at hres
  exact hres

theorem getAffectedFiles_closed (g : DependencyGraph) (changed : List String)
    (md : Nat) (u : String) (d : Nat)
    (h : mapGet (getAffectedFiles changed g md) u = some d) :
    ClosedAt g md (getAffectedFiles changed g md) u d := by
  apply bfsLoop_closed g md _ _ ?_ u d h
  intro u' d' h'
  rw [initMap_get] at h'
  by_cases hmem : u' ∈ changed
  · rw [if_pos hmem] at h'
    cases h'
    exact Or.inl (List.mem_map.mpr ⟨u', hmem, rfl⟩)
  · rw [if_neg hmem] at h'
    simp [mapGet] at h'

theorem getAffectedFiles_complete (g : DependencyGraph)
    (changed : List String) (md : Nat) (v : String) (n : Nat)
    (h : StepsTo g changed v n) (hn : n ≤ md) :
    ∃ d, d ≤ n ∧ mapGet (getAffectedFiles changed g md) v = some d := by
  induction h with
  | seed hv => exact ⟨0, le_refl 0, getAffectedFiles_seed g changed md hv⟩
  | @step u w n hu hw ih =>
    obtain ⟨d, hdn, hget⟩ := ih (by omega)
    have hcl := getAffectedFiles_closed g changed md u d hget
    obtain ⟨dv, hdv, hgetv⟩ := hcl (by omega) w hw
    exact ⟨dv, by omega, hgetv⟩

theorem getAffectedFiles_spec (g : DependencyGraph) (changed : List String)
    (md : Nat) (v : String) (d : Nat) :
    mapGet (getAffectedFiles changed g md) v = some d ↔
      (d ≤ md ∧ StepsTo g changed v d
        ∧ ∀ n, StepsTo g changed v n → d ≤ n) := by
  constructor
  · intro h
    obtain ⟨hs, hd⟩ := getAffectedFiles_sound g changed md v d h
    refine ⟨hd, hs, ?_⟩
    intro n hn
    by_contra hlt
    push_neg at hlt
    obtain ⟨d', hd', hres⟩ := getAffectedFiles_complete g changed md v n hn
      (by omega)
    rw [h] at hres
    cases hres
    omega
  · rintro ⟨hdm, hs, hmin⟩
    obtain ⟨d', hd', hres⟩ := getAffectedFiles_complete g changed md v d hs hdm
    have h2 := hmin d' (getAffectedFiles_sound g changed md v d' hres).1
    have : d' = d := by omega
    rwa [this] at hres

/-- C1: `getAffectedFiles(changedPaths, graph, maxDepth)` maps each
returned file to the length of a shortest `importedBy` path from some
changed path, includes every file whose shortest distance is at most
`maxDepth` (files reached exactly at `maxDepth` included), and omits
every file whose shortest distance exceeds `maxDepth`; in particular,
for `imports = {b: [a]}, importedBy = {a: [b]}` it returns `{a: 0, b: 1}`,
and on the chain `a ← b ← c ← d` with `maxDepth = 2`, `d` is absent and
`c` is present at depth 2. -/
theorem getAffectedFiles_records_shortest_distances :
    (∀ (g : DependencyGraph) (changed : List String) (md : Nat)
      (v : String) (d : Nat),
      mapGet (getAffectedFiles changed g md) v = some d ↔
        (d ≤ md ∧ StepsTo g changed v d
          ∧ ∀ n, StepsTo g changed v n → d ≤ n))
    ∧ getAffectedFiles ["a"] pairGraph 10 = [("a", 0), ("b", 1)]
    ∧ getAffectedFiles ["a"] chainGraph 2 = [("a", 0), ("b", 1), ("c", 2)]
    := by
  refine ⟨fun g changed md v d => getAffectedFiles_spec g changed md v d,
    ?_, ?_⟩
  · simp [getAffectedFiles, bfsLoop, relaxAll, relaxStep, importersOf,
      mapGet, mapSet, pairGraph]
  · simp [getAffectedFiles, bfsLoop, relaxAll, relaxStep, importersOf,
      mapGet, mapSet, chainGraph]

/-- C1 witness: instantiating the characterization on the chain graph at
`c`, depth 2. -/
theorem getAffectedFiles_records_shortest_distances_witness :
    StepsTo chainGraph ["a"] "c" 2 ∧ 2 ≤ 2 := by
  have h : mapGet (getAffectedFiles ["a"] chainGraph 2) "c" = some 2 := by
    simp [getAffectedFiles, bfsLoop, relaxAll, relaxStep, importersOf,
      mapGet, mapSet, chainGraph]
  have h2 := (getAffectedFiles_records_shortest_distances.1 chainGraph
    ["a"] 2 "c" 2).mp h
  exact ⟨h2.2.1, h2.1⟩

/-- C2: `getAffectedFiles` terminates on every finite graph (the BFS
loop is a total function by the `bfsMeasure` well-founded recursion);
on the mutual `importedBy` cycle `a ↔ b` it returns exactly
`{a: 0, b: 1}`. -/
theorem getAffectedFiles_cycle_safe :
    getAffectedFiles ["a"] cycleGraph 10 = [("a", 0), ("b", 1)] := by
  simp [getAffectedFiles, bfsLoop, relaxAll, relaxStep, importersOf,
    mapGet, mapSet, cycleGraph]

/-- C10: for every `maxDepth ≥ 0` (including 0, below the configured
minimum of 1), every changed path is recorded at depth 0 whether or not
it occurs in the graph, every recorded depth is at most `maxDepth`, and
with `maxDepth = 0` the result is exactly the changed paths at depth 0. -/
theorem getAffectedFiles_seeds_and_cutoff :
    (∀ (g : DependencyGraph) (changed : List String) (md : Nat),
      (∀ c ∈ changed, mapGet (getAffectedFiles changed g md) c = some 0)
      ∧ (∀ v d, mapGet (getAffectedFiles changed g md) v = some d → d ≤ md))
    ∧ (∀ (g : DependencyGraph) (changed : List String) (v : String),
      mapGet (getAffectedFiles changed g 0) v
        = if v ∈ changed then some 0 else none) := by
  constructor
  · intro g changed md
    exact ⟨fun c hc => getAffectedFiles_seed g changed md hc,
      fun v d h => (getAffectedFiles_sound g changed md v d h).2⟩
  · intro g changed v
    by_cases hv : v ∈ changed
    · simp [hv, getAffectedFiles_seed g changed 0 hv]
    · rw [if_neg hv]
      cases hres : mapGet (getAffectedFiles changed g 0) v with
      | none => rfl
      | some d =>
        obtain ⟨hs, hd⟩ := getAffectedFiles_sound g changed 0 v d hres
        have hd0 : d = 0 := by omega
        subst hd0
        cases hs with
        | seed h => exact absurd h hv

/-- C10 witness: with `maxDepth = 0` on the pair graph, the changed path
is recorded at 0 and its importer is absent. -/
theorem getAffectedFiles_seeds_and_cutoff_witness :
    mapGet (getAffectedFiles ["a"] pairGraph 0) "a" = some 0
    ∧ mapGet (getAffectedFiles ["a"] pairGraph 0) "b" = none := by
  have ha := getAffectedFiles_seeds_and_cutoff.2 pairGraph ["a"] "a"
  have hb := getAffectedFiles_seeds_and_cutoff.2 pairGraph ["a"] "b"
  constructor
  · rw [ha]; simp
  · rw [hb]; simp

/-- C4: after `set(f, h, l)`, `get(f, h)` returns `l` and `get(f, h')`
returns `null` for every `h' ≠ h`; `get` on a path with no stored entry
returns `null`; after `clear()`, `get` returns `null` for every path
and hash. -/
theorem cache_get_set_clear (d : CacheData) (f h h' p q : String)
    (l : List String) (now : Nat) :
    cacheGet (cacheSet d f h l now) f h = some l
    ∧ (h' ≠ h → cacheGet (cacheSet d f h l now) f h' = none)
    ∧ (mapGet d.entries p = none → cacheGet d p h = none)
    ∧ cacheGet (cacheClear d) q h' = none := by
  refine ⟨?_, ?_, ?_, ?_⟩
  · simp [cacheGet, cacheSet, mapGet_mapSet_self]
  · intro hne
    have hh : h ≠ h' := Ne.symm hne
    simp [cacheGet, cacheSet, mapGet_mapSet_self, hh]
  · intro hnone
    simp [cacheGet, hnone]
  · simp [cacheGet, cacheClear, mapGet]

/-- C4 witness: the concrete set/get/mismatch/missing/clear sequence. -/
theorem cache_get_set_clear_witness :
    cacheGet (cacheSet cacheEmpty "f" "h1" ["a"] 5) "f" "h1" = some ["a"]
    ∧ cacheGet (cacheSet cacheEmpty "f" "h1" ["a"] 5) "f" "h2" = none
    ∧ cacheGet cacheEmpty "x" "h1" = none
    ∧ cacheGet (cacheClear cacheEmpty) "q" "h2" = none := by
  obtain ⟨h1, h2, h3, h4⟩ :=
    cache_get_set_clear cacheEmpty "f" "h1" "h2" "x" "q" ["a"] 5
  exact ⟨h1, h2 (by decide), h3 (by rfl), h4⟩

/-- C5: `resolvePackageImport` resolves through the manifest `exports`
map (exact key first, wildcard pattern substituting the captured
suffix, with existence checks), and falls back to
`main`/`module`/`src/index`/`index` for the root subpath; on the
example package `@app/ui` with
`exports = {".": "./index.ts", "./button": "./src/button.ts"}` the
root import yields the entry file, `./button` yields `./src/button.ts`, and
an undeclared subpath yields `null`. -/
theorem resolvePackageImport_exports_examples :
    resolvePackageImport monorepoEnv "@app/ui" monorepoExample
      = some "packages/ui/index.ts"
    ∧ resolvePackageImport monorepoEnv "@app/ui/button" monorepoExample
      = some "packages/ui/src/button.ts"
    ∧ resolvePackageImport monorepoEnv "@app/ui/invalid" monorepoExample
      = none
    ∧ resolvePackageImport monorepoEnv "@app/lib/util" monorepoExample
      = some "packages/lib/src/util.ts"
    ∧ resolvePackageImport monorepoEnv "@app/utils" monorepoExample
      = some "packages/utils/src/index.ts" := by
  refine ⟨?_, ?_, ?_, ?_, ?_⟩ <;> decide

theorem mem_setAdd {s : List String} {x y : String} :
    y ∈ setAdd s x ↔ y ∈ s ∨ y = x := by
  unfold setAdd
  by_cases hx : x ∈ s
  · simp [hx]
    intro hy
    rw [hy] at *
    exact hx
  · simp [hx]

theorem mem_setOfList_fold {l : List String} :
    ∀ {acc : List String} {y : String},
    y ∈ l.foldl setAdd acc ↔ y ∈ acc ∨ y ∈ l := by
  induction l with
  | nil => intro acc y; simp
  | cons x xs ih =>
    intro acc y
    simp only [List.foldl_cons]
    rw [ih, mem_setAdd]
    simp [List.mem_cons]
    tauto

theorem mem_setOfList {l : List String} {y : String} :
    y ∈ setOfList l ↔ y ∈ l := by
  unfold setOfList
  rw [mem_setOfList_fold]
  simp

theorem buildStep_proj (imp exp : String → List String)
    (g : DependencyGraph) (file : String) :
    (buildStep imp exp g file).imports
        = mapSet g.imports file (setOfList (imp file))
    ∧ (buildStep imp exp g file).importedBy
        = (setOfList (imp file)).foldl
            (fun ib importedFile =>
              mapSet ib importedFile
                (setAdd ((mapGet ib importedFile).getD []) file))
            g.importedBy := by
  constructor <;> rfl

theorem buildLoop_imports_get (imp exp : String → List String) :
    ∀ (files : List String) (g : DependencyGraph) (a : String),
    mapGet (files.foldl (buildStep imp exp) g).imports a
      = if a ∈ files then some (setOfList (imp a)) else mapGet g.imports a := by
  intro files
  induction files with
  | nil => intro g a; simp
  | cons f fs ih =>
    intro g a
    simp only [List.foldl_cons]
    rw [ih]
    by_cases ha : a ∈ fs
    · simp [ha]
    · rw [(buildStep_proj imp exp g f).1, mapGet_mapSet]
      by_cases hf : f = a
      · subst hf
        simp [ha]
      · have haf : ¬ a = f := fun hh => hf hh.symm
        simp [ha, hf, haf, List.mem_cons]

theorem ibFold_get (file : String) :
    ∀ (l : List String) (ib : JsMap (List String)) (b x : String),
    (x ∈ (mapGet (l.foldl
        (fun ib importedFile =>
          mapSet ib importedFile
            (setAdd ((mapGet ib importedFile).getD []) file))
        ib) b).getD [])
      ↔ x ∈ (mapGet ib b).getD [] ∨ (x = file ∧ b ∈ l) := by
  intro l
  induction l with
  | nil => intro ib b x; simp
  | cons i is ih =>
    intro ib b x
    simp only [List.foldl_cons]
    rw [ih]
    rw [mapGet_mapSet]
    by_cases hib : i = b
    · subst hib
      rw [if_pos rfl]
      simp only [Option.getD_some]
      rw [mem_setAdd]
      simp only [List.mem_cons]
      tauto
    · rw [if_neg hib]
      have hbi : b ≠ i := fun hh => hib hh.symm
      simp [List.mem_cons, hbi]

theorem buildLoop_importedBy_get (imp exp : String → List String) :
    ∀ (files : List String) (g : DependencyGraph) (b x : String),
    (x ∈ (mapGet (files.foldl (buildStep imp exp) g).importedBy b).getD [])
      ↔ x ∈ (mapGet g.importedBy b).getD []
        ∨ (x ∈ files ∧ b ∈ setOfList (imp x)) := by
  intro files
  induction files with
  | nil => intro g b x; simp
  | cons f fs ih =>
    intro g b x
    simp only [List.foldl_cons]
    rw [ih, (buildStep_proj imp exp g f).2, ibFold_get]
    constructor
    · rintro ((hg | ⟨hxf, hb⟩) | ⟨hxs, hb⟩)
      · exact Or.inl hg
      · exact Or.inr ⟨by rw [hxf]; exact List.mem_cons_self _ _,
          by rw [hxf]; exact hb⟩
      · exact Or.inr ⟨List.mem_cons_of_mem _ hxs, hb⟩
    · rintro (hg | ⟨hxs, hb⟩)
      · exact Or.inl (Or.inl hg)
      · rcases List.mem_cons.mp hxs with hxf | hxs'
        · exact Or.inl (Or.inr ⟨hxf, by rw [← hxf]; exact hb⟩)
        · exact Or.inr ⟨hxs', hb⟩

/-- C3: in the graph built by `buildDependencyGraph`, `b ∈ imports[a]`
holds exactly when `a ∈ importedBy[b]` — the reverse index is the exact
inverse of the forward index, for every enumerated file set and every
per-file import-extraction result. -/
theorem buildDependencyGraph_symmetry (files : List String)
    (imp exp : String → List String) (a b : String) :
    (b ∈ (mapGet (buildDependencyGraph files imp exp).imports a).getD [])
      ↔ (a ∈ (mapGet (buildDependencyGraph files imp exp).importedBy b).getD [])
    := by
  unfold buildDependencyGraph
  rw [buildLoop_importedBy_get]
  constructor
  · intro hb
    rw [buildLoop_imports_get] at hb
    by_cases ha : a ∈ files
    · rw [if_pos ha] at hb
      simp only [Option.getD_some] at hb
      exact Or.inr ⟨ha, hb⟩
    · rw [if_neg ha] at hb
      simp [mapGet] at hb
  · rintro (hg | ⟨ha, hb⟩)
    · simp [mapGet] at hg
    · rw [buildLoop_imports_get, if_pos ha]
      simpa using hb

theorem insertDescBy_perm {α : Type} (key : α → Nat) (x : α) (l : List α) :
    List.Perm (insertDescBy key x l) (x :: l) := by
  induction l with
  | nil => simp [insertDescBy]
  | cons y ys ih =>
    unfold insertDescBy
    by_cases h : key y < key x
    · simp [h]
    · simp only [if_neg h]
      exact (List.Perm.cons y ih).trans (List.Perm.swap x y ys)

theorem sortDescBy_perm {α : Type} (key : α → Nat) (l : List α) :
    List.Perm (sortDescBy key l) l := by
  have go : ∀ (l acc : List α),
      List.Perm (l.foldl (fun acc x => insertDescBy key x acc) acc)
        (acc ++ l) := by
    intro l
    induction l with
    | nil => intro acc; simp
    | cons x xs ih =>
      intro acc
      simp only [List.foldl_cons]
      refine (ih (insertDescBy key x acc)).trans ?_
      have h1 : List.Perm (insertDescBy key x acc ++ xs) ((x :: acc) ++ xs) :=
        (insertDescBy_perm key x acc).append_right xs
      refine h1.trans ?_
      simpa using List.perm_middle.symm
  simpa using go l []

theorem folderRiskFold_score (fs : List ChangedFile) :
    ∀ (acc : List RiskSignal × Nat),
    acc.2 = (acc.1.map (fun s => s.weight)).sum →
    (fs.foldl folderRiskStep acc).2
      = ((fs.foldl folderRiskStep acc).1.map (fun s => s.weight)).sum := by
  induction fs with
  | nil => intro acc h; exact h
  | cons f fs ih =>
    intro acc h
    simp only [List.foldl_cons]
    apply ih
    unfold folderRiskStep
    by_cases h1 : getFolderRiskLevel f.path = "high"
    · simp [h1, h]
    · by_cases h2 : getFolderRiskLevel f.path = "medium"
      · simp [h1, h2, h]
      · simp [h1, h2, h]

theorem keywordCheck_score (st : List RiskSignal × Nat)
    (fs : List ChangedFile) (mf : ChangedFile → Bool) (tag : String)
    (w : Nat) (desc : ChangedFile → String)
    (h : st.2 = (st.1.map (fun s => s.weight)).sum) :
    (keywordCheck st fs mf tag w desc).2
      = ((keywordCheck st fs mf tag w desc).1.map (fun s => s.weight)).sum := by
  unfold keywordCheck
  cases fs.find? mf with
  | none => exact h
  | some f => simp [h]

theorem moduleCountCheck_score (st : List RiskSignal × Nat)
    (fs : List ChangedFile)
    (h : st.2 = (st.1.map (fun s => s.weight)).sum) :
    (moduleCountCheck st fs).2
      = ((moduleCountCheck st fs).1.map (fun s => s.weight)).sum := by
  unfold moduleCountCheck
  by_cases hc : (getAffectedModules (fs.map (fun f => f.path))).length > 1
  · simp [hc, h]
  · simp [hc, h]

theorem manyFilesCheck_score (st : List RiskSignal × Nat)
    (fs : List ChangedFile)
    (h : st.2 = (st.1.map (fun s => s.weight)).sum) :
    (manyFilesCheck st fs).2
      = ((manyFilesCheck st fs).1.map (fun s => s.weight)).sum := by
  unfold manyFilesCheck
  by_cases hc : fs.length ≥ 5
  · simp [hc, h]
  · simp [hc, h]

theorem riskChecks_score (fs : List ChangedFile) :
    (riskChecks fs).2 = ((riskChecks fs).1.map (fun s => s.weight)).sum := by
  simp only [riskChecks]
  apply manyFilesCheck_score
  apply moduleCountCheck_score
  apply keywordCheck_score
  apply keywordCheck_score
  apply keywordCheck_score
  apply keywordCheck_score
  apply keywordCheck_score
  exact folderRiskFold_score fs ([], 0) rfl

theorem riskLevelOf_iff (n : Nat) :
    (riskLevelOf n = "LOW" ↔ n ≤ 3)
    ∧ (riskLevelOf n = "MEDIUM" ↔ (3 < n ∧ n ≤ 7))
    ∧ (riskLevelOf n = "HIGH" ↔ 7 < n) := by
  unfold riskLevelOf THRESHOLDS_LOW THRESHOLDS_MEDIUM
  by_cases h1 : n ≤ 3
  · rw [if_pos h1]
    refine ⟨by simp [h1], ?_, ?_⟩
    · constructor
      · intro h; exact absurd h (by decide)
      · intro h; omega
    · constructor
      · intro h; exact absurd h (by decide)
      · intro h; omega
  · by_cases h2 : n ≤ 7
    · rw [if_neg h1, if_pos h2]
      refine ⟨?_, by simp; omega, ?_⟩
      · constructor
        · intro h; exact absurd h (by decide)
        · intro h; omega
      · constructor
        · intro h; exact absurd h (by decide)
        · intro h; omega
    · rw [if_neg h1, if_neg h2]
      refine ⟨?_, ?_, by simp; omega⟩
      · constructor
        · intro h; exact absurd h (by decide)
        · intro h; omega
      · constructor
        · intro h; exact absurd h (by decide)
        · intro h; omega

theorem riskAnalyze_level (changedFiles : List ChangedFile) :
    (riskAnalyze changedFiles).level
      = riskLevelOf (riskAnalyze changedFiles).score := by
  unfold riskAnalyze
  by_cases h : (changedFiles.filter (fun f => !(isTestFile f.path))).isEmpty
  · simp [h, riskLevelOf, THRESHOLDS_LOW]
  · simp [h]

/-- C6: the score of `riskCalculator.analyze` equals the sum of the
weights of the returned signals, and the level is LOW iff score ≤ 3,
MEDIUM iff 3 < score ≤ 7, HIGH iff score > 7. -/
theorem riskAnalyze_score_sum_and_levels (changedFiles : List ChangedFile) :
    (riskAnalyze changedFiles).score
        = (((riskAnalyze changedFiles).signals).map (fun s => s.weight)).sum
    ∧ ((riskAnalyze changedFiles).level = "LOW"
        ↔ (riskAnalyze changedFiles).score ≤ 3)
    ∧ ((riskAnalyze changedFiles).level = "MEDIUM"
        ↔ (3 < (riskAnalyze changedFiles).score
            ∧ (riskAnalyze changedFiles).score ≤ 7))
    ∧ ((riskAnalyze changedFiles).level = "HIGH"
        ↔ 7 < (riskAnalyze changedFiles).score) := by
  have hscore : (riskAnalyze changedFiles).score
      = (((riskAnalyze changedFiles).signals).map (fun s => s.weight)).sum := by
    unfold riskAnalyze
    by_cases h : (changedFiles.filter (fun f => !(isTestFile f.path))).isEmpty
    · simp [h]
    · simp only [h, Bool.false_eq_true, if_false]
      have hperm := (sortDescBy_perm (fun s => s.weight)
        (riskChecks (changedFiles.filter (fun f => !(isTestFile f.path)))).1).map
        (fun s => s.weight)
      rw [riskChecks_score]
      exact (hperm.sum_eq).symm
  have hlevel := riskAnalyze_level changedFiles
  have hiff := riskLevelOf_iff (riskAnalyze changedFiles).score
  rw [hlevel]
  exact ⟨hscore, hiff.1, hiff.2.1, hiff.2.2⟩

theorem keywordCheck_filter_other (st : List RiskSignal × Nat)
    (fs : List ChangedFile) (mf : ChangedFile → Bool) (tag : String)
    (w : Nat) (desc : ChangedFile → String) {t : String} (ht : tag ≠ t) :
    (keywordCheck st fs mf tag w desc).1.filter (fun s => s.signal == t)
      = st.1.filter (fun s => s.signal == t) := by
  unfold keywordCheck
  cases fs.find? mf with
  | none => rfl
  | some f => simp [List.filter_append, List.filter_cons, ht]

theorem moduleCountCheck_filter_other (st : List RiskSignal × Nat)
    (fs : List ChangedFile) {t : String} (ht : t ≠ "multiple_modules") :
    (moduleCountCheck st fs).1.filter (fun s => s.signal == t)
      = st.1.filter (fun s => s.signal == t) := by
  unfold moduleCountCheck
  by_cases hc : (getAffectedModules (fs.map (fun f => f.path))).length > 1
  · simp [hc, List.filter_append, List.filter_cons, Ne.symm ht]
  · simp [hc]

theorem manyFilesCheck_filter_other (st : List RiskSignal × Nat)
    (fs : List ChangedFile) {t : String} (ht : t ≠ "many_files") :
    (manyFilesCheck st fs).1.filter (fun s => s.signal == t)
      = st.1.filter (fun s => s.signal == t) := by
  unfold manyFilesCheck
  by_cases hc : fs.length ≥ 5
  · simp [hc, List.filter_append, List.filter_cons, Ne.symm ht]
  · simp [hc]

theorem keywordCheck_filter_self_sum (st : List RiskSignal × Nat)
    (fs : List ChangedFile) (mf : ChangedFile → Bool) (tag : String)
    (w : Nat) (desc : ChangedFile → String) :
    (((keywordCheck st fs mf tag w desc).1.filter
        (fun s => s.signal == tag)).map (fun s => s.weight)).sum
      = ((st.1.filter (fun s => s.signal == tag)).map
          (fun s => s.weight)).sum
        + (if fs.any mf then w else 0) := by
  unfold keywordCheck
  cases hf : fs.find? mf with
  | none =>
    have hany : fs.any mf = false := by
      rw [List.any_eq_false]
      intro x hx
      have := List.find?_eq_none.mp hf x hx
      simpa using this
    simp [hany]
  | some f =>
    have hany : fs.any mf = true := by
      rw [List.any_eq_true]
      exact ⟨f, List.mem_of_find?_eq_some hf, List.find?_some hf⟩
    simp [hany, List.filter_append, List.filter_cons]

theorem folderRiskFold_filter_other {t : String}
    (h1 : t ≠ "high_risk_folder") (h2 : t ≠ "medium_risk_folder") :
    ∀ (fs : List ChangedFile) (acc : List RiskSignal × Nat),
    (fs.foldl folderRiskStep acc).1.filter (fun s => s.signal == t)
      = acc.1.filter (fun s => s.signal == t) := by
  intro fs
  induction fs with
  | nil => intro acc; rfl
  | cons f fs ih =>
    intro acc
    simp only [List.foldl_cons]
    rw [ih]
    unfold folderRiskStep
    by_cases hh : getFolderRiskLevel f.path = "high"
    · simp [hh, List.filter_append, List.filter_cons, Ne.symm h1]
    · by_cases hm : getFolderRiskLevel f.path = "medium"
      · simp [hh, hm, List.filter_append, List.filter_cons, Ne.symm h2]
      · simp [hh, hm]

theorem folderRiskFold_high_sum :
    ∀ (fs : List ChangedFile) (acc : List RiskSignal × Nat),
    (((fs.foldl folderRiskStep acc).1.filter
        (fun s => s.signal == "high_risk_folder")).map
        (fun s => s.weight)).sum
      = ((acc.1.filter (fun s => s.signal == "high_risk_folder")).map
          (fun s => s.weight)).sum
        + 3 * (fs.filter
            (fun f => getFolderRiskLevel f.path == "high")).length := by
  intro fs
  induction fs with
  | nil => intro acc; simp
  | cons f fs ih =>
    intro acc
    simp only [List.foldl_cons]
    rw [ih]
    unfold folderRiskStep
    by_cases hh : getFolderRiskLevel f.path = "high"
    · simp [hh, List.filter_append, List.filter_cons, WEIGHTS]
      omega
    · by_cases hm : getFolderRiskLevel f.path = "medium"
      · simp [hh, hm, List.filter_append, List.filter_cons]
      · simp [hh, hm]

theorem folderRiskFold_medium_sum :
    ∀ (fs : List ChangedFile) (acc : List RiskSignal × Nat),
    (((fs.foldl folderRiskStep acc).1.filter
        (fun s => s.signal == "medium_risk_folder")).map
        (fun s => s.weight)).sum
      = ((acc.1.filter (fun s => s.signal == "medium_risk_folder")).map
          (fun s => s.weight)).sum
        + 1 * (fs.filter
            (fun f => getFolderRiskLevel f.path == "medium")).length := by
  intro fs
  induction fs with
  | nil => intro acc; simp
  | cons f fs ih =>
    intro acc
    simp only [List.foldl_cons]
    rw [ih]
    unfold folderRiskStep
    by_cases hh : getFolderRiskLevel f.path = "high"
    · have hm : getFolderRiskLevel f.path ≠ "medium" := by
        rw [hh]; decide
      simp [hh, hm, List.filter_append, List.filter_cons]
    · by_cases hm : getFolderRiskLevel f.path = "medium"
      · simp [hh, hm, List.filter_append, List.filter_cons, WEIGHTS]
        omega
      · simp [hh, hm]

theorem sortDescBy_filter_sum (t : String) (l : List RiskSignal) :
    (((sortDescBy (fun s => s.weight) l).filter
        (fun s => s.signal == t)).map (fun s => s.weight)).sum
      = ((l.filter (fun s => s.signal == t)).map (fun s => s.weight)).sum :=
  (((sortDescBy_perm (fun s => s.weight) l).filter
    (fun s => s.signal == t)).map (fun s => s.weight)).sum_eq

/-- C7: the folder-risk contribution of `riskCalculator.analyze` is
summed once per matching changed source file (`+3` per high-risk file,
`+1` per medium-risk file, not deduplicated across files), while the
auth/security keyword signal contributes `+4` at most once per run
(exactly when some changed source file path contains a keyword). -/
theorem riskAnalyze_folder_per_file_auth_once
    (changedFiles : List ChangedFile) :
    ((((riskAnalyze changedFiles).signals.filter
        (fun s => s.signal == "high_risk_folder")).map
        (fun s => s.weight)).sum
      = 3 * ((changedFiles.filter (fun f => !(isTestFile f.path))).filter
          (fun f => getFolderRiskLevel f.path == "high")).length)
    ∧ ((((riskAnalyze changedFiles).signals.filter
        (fun s => s.signal == "medium_risk_folder")).map
        (fun s => s.weight)).sum
      = 1 * ((changedFiles.filter (fun f => !(isTestFile f.path))).filter
          (fun f => getFolderRiskLevel f.path == "medium")).length)
    ∧ ((((riskAnalyze changedFiles).signals.filter
        (fun s => s.signal == "auth_security")).map
        (fun s => s.weight)).sum
      = if (changedFiles.filter (fun f => !(isTestFile f.path))).any authMatch
          then 4 else 0) := by
  by_cases hempty : (changedFiles.filter (fun f => !(isTestFile f.path))).isEmpty
  · rw [List.isEmpty_iff] at hempty
    refine ⟨?_, ?_, ?_⟩ <;> simp [riskAnalyze, hempty]
  · refine ⟨?_, ?_, ?_⟩
    · simp only [riskAnalyze, hempty, Bool.false_eq_true, if_false]
      rw [sortDescBy_filter_sum]
      simp only [riskChecks]
      rw [manyFilesCheck_filter_other _ _ (by decide)]
      rw [moduleCountCheck_filter_other _ _ (by decide)]
      rw [keywordCheck_filter_other _ _ _ _ _ _ (by decide)]
      rw [keywordCheck_filter_other _ _ _ _ _ _ (by decide)]
      rw [keywordCheck_filter_other _ _ _ _ _ _ (by decide)]
      rw [keywordCheck_filter_other _ _ _ _ _ _ (by decide)]
      rw [keywordCheck_filter_other _ _ _ _ _ _ (by decide)]
      simp only [folderRiskFold]
      rw [folderRiskFold_high_sum]
      simp
    · simp only [riskAnalyze, hempty, Bool.false_eq_true, if_false]
      rw [sortDescBy_filter_sum]
      simp only [riskChecks]
      rw [manyFilesCheck_filter_other _ _ (by decide)]
      rw [moduleCountCheck_filter_other _ _ (by decide)]
      rw [keywordCheck_filter_other _ _ _ _ _ _ (by decide)]
      rw [keywordCheck_filter_other _ _ _ _ _ _ (by decide)]
      rw [keywordCheck_filter_other _ _ _ _ _ _ (by decide)]
      rw [keywordCheck_filter_other _ _ _ _ _ _ (by decide)]
      rw [keywordCheck_filter_other _ _ _ _ _ _ (by decide)]
      simp only [folderRiskFold]
      rw [folderRiskFold_medium_sum]
      simp
    · simp only [riskAnalyze, hempty, Bool.false_eq_true, if_false]
      rw [sortDescBy_filter_sum]
      simp only [riskChecks]
      rw [manyFilesCheck_filter_other _ _ (by decide)]
      rw [moduleCountCheck_filter_other _ _ (by decide)]
      rw [keywordCheck_filter_other _ _ _ _ _ _ (by decide)]
      rw [keywordCheck_filter_other _ _ _ _ _ _ (by decide)]
      rw [keywordCheck_filter_other _ _ _ _ _ _ (by decide)]
      rw [keywordCheck_filter_other _ _ _ _ _ _ (by decide)]
      rw [keywordCheck_filter_self_sum]
      simp only [folderRiskFold]
      rw [@folderRiskFold_filter_other "auth_security" (by decide) (by decide)]
      simp [WEIGHTS]

theorem filterPush_mem (p : String → Bool) :
    ∀ (l acc : List String) (x : String),
    (x ∈ l.foldl (fun acc file => if p file then acc ++ [file] else acc) acc)
      ↔ x ∈ acc ∨ (x ∈ l ∧ p x) := by
  intro l
  induction l with
  | nil => intro acc x; simp
  | cons f fs ih =>
    intro acc x
    simp only [List.foldl_cons]
    rw [ih]
    by_cases hp : p f
    · simp only [hp, if_pos]
      simp [List.mem_append, List.mem_cons]
      constructor
      · rintro ((h | h) | h)
        · tauto
        · subst h; tauto
        · tauto
      · rintro (h | ⟨(h | h), hq⟩)
        · tauto
        · subst h; tauto
        · tauto
    · simp only [Bool.not_eq_true] at hp
      simp only [hp, Bool.false_eq_true, if_false]
      simp [List.mem_cons]
      constructor
      · rintro (h | h)
        · tauto
        · tauto
      · rintro (h | ⟨(h | h), hq⟩)
        · tauto
        · subst h
          rw [hp] at hq
          cases hq
        · tauto

theorem fuzzyPush_mem (q : String → Bool) :
    ∀ (l acc : List String) (x : String),
    (x ∈ l.foldl
        (fun acc file =>
          if q file && !(acc.contains file) then acc ++ [file] else acc)
        acc)
      ↔ x ∈ acc ∨ (x ∈ l ∧ q x) := by
  intro l
  induction l with
  | nil => intro acc x; simp
  | cons f fs ih =>
    intro acc x
    simp only [List.foldl_cons]
    rw [ih]
    by_cases hq : q f
    · by_cases hc : acc.contains f
      · have hf : f ∈ acc := List.mem_of_elem_eq_true hc
        simp only [hq, hc, Bool.not_true, Bool.and_false, Bool.false_eq_true,
          if_false]
        simp [List.mem_cons]
        constructor
        · rintro (h | h) <;> tauto
        · rintro (h | ⟨(h | h), hx⟩)
          · tauto
          · subst h; tauto
          · tauto
      · have hcf : acc.contains f = false := by
          cases h' : acc.contains f
          · rfl
          · exact absurd h' hc
        rw [if_pos (by rw [hq, hcf]; rfl)]
        simp [List.mem_append, List.mem_cons]
        constructor
        · rintro ((h | h) | h)
          · tauto
          · subst h; tauto
          · tauto
        · rintro (h | ⟨(h | h), hx⟩)
          · tauto
          · subst h; tauto
          · tauto
    · simp only [Bool.not_eq_true] at hq
      simp only [hq, Bool.false_and, Bool.false_eq_true, if_false]
      simp [List.mem_cons]
      constructor
      · rintro (h | h) <;> tauto
      · rintro (h | ⟨(h | h), hx⟩)
        · tauto
        · subst h
          rw [hq] at hx
          cases hx
        · tauto

/-- C8: `matchTestFiles(sourceFile, allFiles)` returns a file of
`allFiles` exactly when its normalized path case-insensitively equals
one of the generated candidate test locations, or (fallback) it is a
test file whose base name with the test suffix stripped equals the
source base name with its extension stripped; on
`user.service.ts` with
`["user.service.ts", "user.service.spec.ts", "other.spec.ts"]` it
returns exactly `["user.service.spec.ts"]`. -/
theorem matchTestFiles_membership_and_example :
    (∀ (sourceFile : String) (allFiles : List String) (f : String),
      f ∈ matchTestFiles sourceFile allFiles ↔
        f ∈ allFiles
          ∧ ((slashify (toLower f)
              ∈ (getTestFilePatterns sourceFile).map
                  (fun p => slashify (toLower p)))
            ∨ (isTestFile f
              ∧ stripTestSuffix (pathBasename f)
                = stripExtSuffix (pathBasename sourceFile))))
    ∧ matchTestFiles "user.service.ts"
        ["user.service.ts", "user.service.spec.ts", "other.spec.ts"]
      = ["user.service.spec.ts"] := by
  constructor
  · intro sourceFile allFiles f
    unfold matchTestFiles
    rw [fuzzyPush_mem (fuzzyNamingMatch sourceFile) allFiles _ f,
      filterPush_mem (exactNamingMatch sourceFile) allFiles [] f]
    unfold exactNamingMatch fuzzyNamingMatch
    simp only [List.not_mem_nil, false_or, Bool.and_eq_true,
      decide_eq_true_eq, List.elem_iff]
    constructor
    · rintro (⟨hf, he⟩ | ⟨hf, ht, hb⟩)
      · exact ⟨hf, Or.inl he⟩
      · exact ⟨hf, Or.inr ⟨ht, hb⟩⟩
    · rintro ⟨hf, he | ⟨ht, hb⟩⟩
      · exact Or.inl ⟨hf, he⟩
      · exact Or.inr ⟨hf, ht, hb⟩
  · decide

theorem mem_mapSet {α : Type} {m : JsMap α} {k : String} {v : α}
    {p : String × α} (hp : p ∈ mapSet m k v) : p ∈ m ∨ p = (k, v) := by
  induction m with
  | nil => simpa [mapSet] using hp
  | cons q rest ih =>
    unfold mapSet at hp
    by_cases hq : q.1 = k
    · rw [if_pos hq] at hp
      rcases List.mem_cons.mp hp with h | h
      · exact Or.inr h
      · exact Or.inl (List.mem_cons_of_mem _ h)
    · rw [if_neg hq] at hp
      rcases List.mem_cons.mp hp with h | h
      · exact Or.inl (h ▸ List.mem_cons_self _ _)
      · rcases ih h with h' | h'
        · exact Or.inl (List.mem_cons_of_mem _ h')
        · exact Or.inr h'

theorem foldl_preserves {α β : Type} (P : β → Prop) (f : β → α → β)
    (hf : ∀ b a, P b → P (f b a)) :
    ∀ (l : List α) (b : β), P b → P (l.foldl f b) := by
  intro l
  induction l with
  | nil => intro b hb; exact hb
  | cons x xs ih => intro b hb; exact ih _ (hf b x hb)

theorem addImpact_inv (m : JsMap (List ImpactReason)) (testFile : String)
    (reason : ImpactReason)
    (hInv : ∀ p ∈ m, List.Pairwise
      (fun r1 r2 => ¬(r1.type = r2.type ∧ r1.relatedFile = r2.relatedFile))
      p.2) :
    ∀ p ∈ addImpact m testFile reason, List.Pairwise
      (fun r1 r2 => ¬(r1.type = r2.type ∧ r1.relatedFile = r2.relatedFile))
      p.2 := by
  have hm1Inv : ∀ p ∈ (if mapHas m testFile then m
      else mapSet m testFile []), List.Pairwise
      (fun r1 r2 => ¬(r1.type = r2.type ∧ r1.relatedFile = r2.relatedFile))
      p.2 := by
    by_cases hh : mapHas m testFile
    · simpa [hh] using hInv
    · rw [if_neg hh]
      intro p hp
      rcases mem_mapSet hp with h | h
      · exact hInv p h
      · rw [h]
        exact List.Pairwise.nil
  intro p hp
  simp only [addImpact] at hp
  rcases hdup : (((mapGet (if mapHas m testFile then m
      else mapSet m testFile []) testFile).getD []).any fun r =>
      r.type == reason.type && r.relatedFile == reason.relatedFile) with _ | _
  · rw [hdup] at hp
    simp only [Bool.false_eq_true, if_false] at hp
    rcases mem_mapSet hp with h | h
    · exact hm1Inv p h
    · rw [h]
      simp only
      rw [List.pairwise_append]
      refine ⟨?_, List.pairwise_singleton _ _, ?_⟩
      · cases hg : mapGet (if mapHas m testFile then m
            else mapSet m testFile []) testFile with
        | none => simp
        | some rs =>
          simp only [hg, Option.getD_some]
          exact hm1Inv (testFile, rs) (mapGet_mem hg)
      · intro a ha b hb
        rcases List.mem_singleton.mp hb with rfl
        have := List.any_eq_false.mp (by exact hdup) a ha
        simp only [Bool.and_eq_true, beq_iff_eq] at this
        tauto
  · rw [hdup] at hp
    simp only [if_true] at hp
    exact hm1Inv p hp

theorem sharedAddImpact_inv (m : JsMap (List ImpactReason)) (file : String)
    (reason : ImpactReason)
    (hInv : ∀ p ∈ m, List.Pairwise
      (fun r1 r2 => ¬(r1.type = r2.type ∧ r1.description = r2.description
        ∧ r1.relatedFile = r2.relatedFile)) p.2) :
    ∀ p ∈ sharedAddImpact m file reason, List.Pairwise
      (fun r1 r2 => ¬(r1.type = r2.type ∧ r1.description = r2.description
        ∧ r1.relatedFile = r2.relatedFile)) p.2 := by
  have hm1Inv : ∀ p ∈ (if mapHas m file then m
      else mapSet m file []), List.Pairwise
      (fun r1 r2 => ¬(r1.type = r2.type ∧ r1.description = r2.description
        ∧ r1.relatedFile = r2.relatedFile)) p.2 := by
    by_cases hh : mapHas m file
    · simpa [hh] using hInv
    · rw [if_neg hh]
      intro p hp
      rcases mem_mapSet hp with h | h
      · exact hInv p h
      · rw [h]
        exact List.Pairwise.nil
  intro p hp
  simp only [sharedAddImpact] at hp
  rcases hdup : (((mapGet (if mapHas m file then m
      else mapSet m file []) file).getD []).any fun r =>
      r.type == reason.type && r.description == reason.description
        && r.relatedFile == reason.relatedFile) with _ | _
  · rw [hdup] at hp
    simp only [Bool.false_eq_true, if_false] at hp
    rcases mem_mapSet hp with h | h
    · exact hm1Inv p h
    · rw [h]
      simp only
      rw [List.pairwise_append]
      refine ⟨?_, List.pairwise_singleton _ _, ?_⟩
      · cases hg : mapGet (if mapHas m file then m
            else mapSet m file []) file with
        | none => simp
        | some rs =>
          simp only [hg, Option.getD_some]
          exact hm1Inv (file, rs) (mapGet_mem hg)
      · intro a ha b hb
        rcases List.mem_singleton.mp hb with rfl
        have := List.any_eq_false.mp (by exact hdup) a ha
        simp only [Bool.and_eq_true, beq_iff_eq] at this
        tauto
  · rw [hdup] at hp
    simp only [if_true] at hp
    exact hm1Inv p hp

theorem impactFold_preserves {α : Type}
    (f : JsMap (List ImpactReason) → α → JsMap (List ImpactReason))
    (hf : ∀ b a,
      (∀ p ∈ b, List.Pairwise
        (fun r1 r2 => ¬(r1.type = r2.type ∧ r1.relatedFile = r2.relatedFile))
        p.2) →
      (∀ p ∈ f b a, List.Pairwise
        (fun r1 r2 => ¬(r1.type = r2.type ∧ r1.relatedFile = r2.relatedFile))
        p.2)) :
    ∀ (l : List α) (b : JsMap (List ImpactReason)),
    (∀ p ∈ b, List.Pairwise
      (fun r1 r2 => ¬(r1.type = r2.type ∧ r1.relatedFile = r2.relatedFile))
      p.2) →
    ∀ p ∈ l.foldl f b, List.Pairwise
      (fun r1 r2 => ¬(r1.type = r2.type ∧ r1.relatedFile = r2.relatedFile))
      p.2 := by
  intro l
  induction l with
  | nil => intro b hb; exact hb
  | cons x xs ih => intro b hb; exact ih _ (hf b x hb)

theorem impactSteps_inv (changedFiles : List ChangedFile)
    (graph : DependencyGraph) (allFiles : List String)
    (m : JsMap (List ImpactReason))
    (hInv : ∀ p ∈ m, List.Pairwise
      (fun r1 r2 => ¬(r1.type = r2.type ∧ r1.relatedFile = r2.relatedFile))
      p.2) :
    ∀ p ∈ impactStep5 changedFiles allFiles
        (impactStep3 (changedFiles.map (fun f => f.path)) graph
          (impactStep2 changedFiles allFiles
            (impactStep1 changedFiles m))),
      List.Pairwise
        (fun r1 r2 => ¬(r1.type = r2.type ∧ r1.relatedFile = r2.relatedFile))
        p.2 := by
  have h1 : ∀ p ∈ impactStep1 changedFiles m, List.Pairwise
      (fun r1 r2 => ¬(r1.type = r2.type ∧ r1.relatedFile = r2.relatedFile))
      p.2 := by
    unfold impactStep1
    refine impactFold_preserves _ ?_ changedFiles m hInv
    intro b f hb
    by_cases hf : (isTestFile f.path || isInTestFolder f.path)
    · simpa [hf] using addImpact_inv b f.path _ hb
    · simpa [hf] using hb
  have h2 : ∀ p ∈ impactStep2 changedFiles allFiles
      (impactStep1 changedFiles m), List.Pairwise
      (fun r1 r2 => ¬(r1.type = r2.type ∧ r1.relatedFile = r2.relatedFile))
      p.2 := by
    unfold impactStep2
    refine impactFold_preserves _ ?_ changedFiles _ h1
    intro b f hb
    by_cases hf : isTestFile f.path
    · simpa [hf] using hb
    · simp only [hf, Bool.false_eq_true, if_false]
      refine impactFold_preserves _ ?_ (matchTestFiles f.path allFiles) b hb
      intro b' t hb'
      exact addImpact_inv b' t _ hb'
  have h3 : ∀ p ∈ impactStep3 (changedFiles.map (fun f => f.path)) graph
      (impactStep2 changedFiles allFiles (impactStep1 changedFiles m)),
      List.Pairwise
      (fun r1 r2 => ¬(r1.type = r2.type ∧ r1.relatedFile = r2.relatedFile))
      p.2 := by
    unfold impactStep3
    refine impactFold_preserves _ ?_ _ _ h2
    intro b entry hb
    by_cases hf : (isTestFile entry.1 || isInTestFolder entry.1)
    · simpa [hf] using addImpact_inv b entry.1 _ hb
    · simpa [hf] using hb
  unfold impactStep5
  refine impactFold_preserves _ ?_ changedFiles _ h3
  intro b f hb
  by_cases hf : isTestFile f.path
  · simpa [hf] using hb
  · simp only [hf, Bool.false_eq_true, if_false]
    refine impactFold_preserves _ ?_ allFiles b hb
    intro b' t hb'
    by_cases ht : isTestFile t
    · simp only [ht, Bool.not_true, Bool.false_eq_true, if_false]
      by_cases hhas : mapHas b' t
      · simpa [hhas] using hb'
      · simp only [hhas, Bool.false_eq_true, if_false]
        by_cases hdir : ((getDirname t = getDirname f.path ++ "/__tests__"
            ∨ getDirname t = getDirname f.path ++ "/test")
            ∨ getDirname t = getDirname f.path ++ "/tests")
        · simpa [hdir] using addImpact_inv b' t _ hb'
        · simpa [hdir] using hb'
    · simpa [ht] using hb'

/-- C9: in every `ImpactedFile` produced by the unit test analyzer, no
two reasons share both `type` and `relatedFile`; and the shared-utility
`addImpact` variant preserves the stronger invariant that no two
reasons share `type`, `description` and `relatedFile`. -/
theorem unitTestAnalyze_reasons_deduped :
    (∀ (changedFiles : List ChangedFile) (graph : DependencyGraph)
      (allFiles : List String),
      ∀ impacted ∈ unitTestAnalyze changedFiles graph allFiles,
      List.Pairwise
        (fun r1 r2 => ¬(r1.type = r2.type ∧ r1.relatedFile = r2.relatedFile))
        impacted.reasons)
    ∧ (∀ (m : JsMap (List ImpactReason)) (file : String) (r : ImpactReason),
      (∀ p ∈ m, List.Pairwise
        (fun r1 r2 => ¬(r1.type = r2.type ∧ r1.description = r2.description
          ∧ r1.relatedFile = r2.relatedFile)) p.2) →
      ∀ p ∈ sharedAddImpact m file r, List.Pairwise
        (fun r1 r2 => ¬(r1.type = r2.type ∧ r1.description = r2.description
          ∧ r1.relatedFile = r2.relatedFile)) p.2) := by
  constructor
  · intro changedFiles graph allFiles impacted hmem
    simp only [unitTestAnalyze] at hmem
    have hperm := sortDescBy_perm (fun f : ImpactedFile => f.reasons.length)
      ((impactStep5 changedFiles allFiles
        (impactStep3 (changedFiles.map (fun f => f.path)) graph
          (impactStep2 changedFiles allFiles
            (impactStep1 changedFiles [])))).map
        (fun p => ImpactedFile.mk p.1 p.2))
    rw [hperm.mem_iff] at hmem
    obtain ⟨p, hp, hpe⟩ := List.mem_map.mp hmem
    have := impactSteps_inv changedFiles graph allFiles []
      (by intro p hp; simp at hp) p hp
    rw [← hpe]
    exact this
  · exact sharedAddImpact_inv

/-- C9 witness: the analyzer run on a directly changed test file over the
empty graph yields one impacted file whose two reasons differ in type. -/
theorem unitTestAnalyze_reasons_deduped_witness :
    List.Pairwise
      (fun r1 r2 => ¬(r1.type = r2.type ∧ r1.relatedFile = r2.relatedFile))
      (ImpactedFile.mk "a.spec.ts"
        [ImpactReason.mk "direct_change" "Test file was directly modified"
          none,
         ImpactReason.mk "imports_changed"
          "Transitively imports changed file (depth: 0)" none]).reasons := by
  apply unitTestAnalyze_reasons_deduped.1
    [ChangedFile.mk "a.spec.ts" "modified" none] (DependencyGraph.mk [] [] [])
    []
  have hga : getAffectedFiles ["a.spec.ts"] (DependencyGraph.mk [] [] []) 10
      = [("a.spec.ts", 0)] := by
    simp [getAffectedFiles, bfsLoop, relaxAll, relaxStep, importersOf, mapGet,
      mapSet]
  simp only [unitTestAnalyze, impactStep3, List.map_cons, List.map_nil, hga]
  decide

/-- C3 witness: symmetry instantiated on a one-file graph. -/
theorem buildDependencyGraph_symmetry_witness :
    ("a" ∈ (mapGet (buildDependencyGraph ["b"] (fun _ => ["a"])
        (fun _ => [])).imports "b").getD [])
      ↔ ("b" ∈ (mapGet (buildDependencyGraph ["b"] (fun _ => ["a"])
        (fun _ => [])).importedBy "a").getD []) :=
  buildDependencyGraph_symmetry ["b"] (fun _ => ["a"]) (fun _ => []) "b" "a"

/-- C6 witness: the LOW iff instantiated on an auth change. -/
theorem riskAnalyze_score_sum_and_levels_witness :
    (riskAnalyze [ChangedFile.mk "src/auth/login.ts" "modified" none]).level
        = "LOW"
      ↔ (riskAnalyze
          [ChangedFile.mk "src/auth/login.ts" "modified" none]).score ≤ 3 :=
  (riskAnalyze_score_sum_and_levels
    [ChangedFile.mk "src/auth/login.ts" "modified" none]).2.1

/-- C7 witness: the once-only auth contribution on an auth change. -/
theorem riskAnalyze_folder_per_file_auth_once_witness :
    (((riskAnalyze [ChangedFile.mk "src/auth/login.ts" "modified"
        none]).signals.filter (fun s => s.signal == "auth_security")).map
        (fun s => s.weight)).sum
      = if ([ChangedFile.mk "src/auth/login.ts" "modified" none].filter
            (fun f => !(isTestFile f.path))).any authMatch
        then 4 else 0 :=
  (riskAnalyze_folder_per_file_auth_once
    [ChangedFile.mk "src/auth/login.ts" "modified" none]).2.2

/-- C8 witness: the membership characterization applied to the example. -/
theorem matchTestFiles_membership_and_example_witness :
    "user.service.spec.ts"
      ∈ matchTestFiles "user.service.ts" ["user.service.spec.ts"] :=
  (matchTestFiles_membership_and_example.1 "user.service.ts"
    ["user.service.spec.ts"] "user.service.spec.ts").mpr
    ⟨by decide, Or.inl (by decide)⟩
